import Mathlib

/-!
Verification of the image-upload toolkit processor
(src/uploader/imageTagProcessor.ts).

The development shallowly embeds the processor: the two scanning regular
expressions (WIKI_REGEX and MD_REGEX) are embedded by a backtracking matcher
specialised to their exact shape (lazy and greedy stars over the JavaScript
dot, ordered alternation of the extension list, the optional trailing group
of WIKI_REGEX), the header regex PROPERTIES_REGEX by its anchored lazy
search, and the process method by a pure function over an environment of
collaborator functions (vault adapter, file manager, uploader, editor).
A wrapper promise whose upload rejects is never resolved by the source
(its catch handler only raises a notice), so Promise.all never settles once
any upload fails: the model returns a distinguished hang result in that
case, and the completed-batch result otherwise. The string builtins the
processor leans on are embedded with their error and substitution
behaviour: String.replaceAll applies the GetSubstitution dollar escapes of
ECMA-262 to its replacement, and decodeURI throws URIError on a malformed
percent escape, which aborts the whole extraction; the model carries that
as an option and a distinguished process result.
-/

namespace ImageToolkit

/-- Characters matched by an unflagged JavaScript regex dot: everything
except the four line terminators. -/
def jsDot (c : Char) : Bool :=
  !(c = '\n' || c = '\r' || c = '\u2028' || c = '\u2029')

/-- Boolean test that the second list starts with the first one. -/
def lsw : List Char → List Char → Bool
  | [], _ => true
  | _ :: _, [] => false
  | p :: ps, c :: cs => p = c && lsw ps cs

/-- Length of the longest prefix made of characters a JavaScript dot
matches. -/
def lineRun : List Char → Nat
  | [] => 0
  | c :: cs => if jsDot c then lineRun cs + 1 else 0

/-- JS String.startsWith. -/
def startsWithStr (s p : String) : Bool := lsw p.data s.data

/-- JS String.endsWith. -/
def endsWithStr (s p : String) : Bool := lsw p.data.reverse s.data.reverse

/-- First success of f on n, n+1, ..., n+k-1. -/
def ascSearch {α : Type} (f : Nat → Option α) : Nat → Nat → Option α
  | 0, _ => none
  | k + 1, n =>
    match f n with
    | some v => some v
    | none => ascSearch f k (n + 1)

/-- First success of f on j, j-1, ..., 0. -/
def descSearch {α : Type} (f : Nat → Option α) : Nat → Option α
  | 0 => f 0
  | j + 1 =>
    match f (j + 1) with
    | some v => some v
    | none => descSearch f j

/-- The extension alternation png|jpg|jpeg|gif|svg|webp|excalidraw shared by
both regexes, in source order. -/
def extList : List (List Char) :=
  ["png".data, "jpg".data, "jpeg".data, "gif".data, "svg".data,
   "webp".data, "excalidraw".data]

/-- Match of the trailing part of WIKI_REGEX after the captured name: the
optional group first tries its empty alternative, then a greedy dot-star
backtracking from the longest run, followed by the two closing brackets.
Returns the number of characters consumed. -/
def wikiTail (r : List Char) : Option Nat :=
  if lsw [']', ']'] r then some 2
  else
    descSearch
      (fun j => if lsw [']', ']'] (r.drop j) then some (j + 2) else none)
      (lineRun r)

/-- Ordered try of the extension alternatives of WIKI_REGEX at a fixed dot
position n: an alternative that matches but whose tail fails is backtracked
into the next alternative. Returns (name length, consumed after brackets). -/
def extSearch (r : List Char) (n : Nat) : List (List Char) → Option (Nat × Nat)
  | [] => none
  | e :: es =>
    if lsw e (r.drop (n + 1)) then
      match wikiTail (r.drop (n + 1 + e.length)) with
      | some t => some (n + 1 + e.length, n + 1 + e.length + t)
      | none => extSearch r n es
    else extSearch r n es

/-- Match of the part of WIKI_REGEX after the two opening brackets: the lazy
star grows the dot position from the left until an extension and the tail
match. Returns (name length, total consumed after the opening brackets). -/
def wikiBody (r : List Char) : Option (Nat × Nat) :=
  ascSearch
    (fun n => if lsw ['.'] (r.drop n) then extSearch r n extList else none)
    (lineRun r + 1) 0

/-- Match of the whole WIKI_REGEX at the head of s: returns (name length,
total length of the match). -/
def wikiMatchAt (s : List Char) : Option (Nat × Nat) :=
  if lsw ['!', '[', '['] s then
    match wikiBody (s.drop 3) with
    | some (nl, t) => some (nl, 3 + t)
    | none => none
  else none

/-- Ordered try of the extension alternatives of MD_REGEX at a fixed dot
position, each requiring the closing parenthesis right after it. Returns
(path length, consumed including the parenthesis). -/
def mdExtSearch (p : List Char) (n : Nat) : List (List Char) → Option (Nat × Nat)
  | [] => none
  | e :: es =>
    if lsw e (p.drop (n + 1)) && lsw [')'] (p.drop (n + 1 + e.length)) then
      some (n + 1 + e.length, n + 1 + e.length + 1)
    else mdExtSearch p n es

/-- Match of the lazy path group of MD_REGEX followed by the closing
parenthesis: the lazy star grows the dot position from the left. -/
def mdPath (p : List Char) : Option (Nat × Nat) :=
  ascSearch
    (fun n => if lsw ['.'] (p.drop n) then mdExtSearch p n extList else none)
    (lineRun p + 1) 0

/-- Match of the whole MD_REGEX at the head of s: the greedy alt group
backtracks from the longest dot run. Returns (alt length, path length,
total length of the match). -/
def mdMatchAt (s : List Char) : Option (Nat × Nat × Nat) :=
  if lsw ['!', '['] s then
    descSearch
      (fun g =>
        if lsw [']', '('] ((s.drop 2).drop g) then
          match mdPath ((s.drop 2).drop (g + 2)) with
          | some (pl, t) => some (g, pl, 2 + g + 2 + t)
          | none => none
        else none)
      (lineRun (s.drop 2))
  else none

/-- One regex match: absolute span bounds, the raw matched span, and the two
captures the processor reads (group 1, and group 2 for MD_REGEX). -/
structure MatchInfo where
  start : Nat
  stop : Nat
  raw : String
  cap1 : String
  cap2 : String
deriving DecidableEq

/-- WIKI_REGEX attempted at absolute position i of s. -/
def wikiAt (s : List Char) (i : Nat) : Option MatchInfo :=
  match wikiMatchAt (s.drop i) with
  | some (nl, t) =>
    some ⟨i, i + t, ⟨(s.drop i).take t⟩, ⟨(s.drop (i + 3)).take nl⟩, ""⟩
  | none => none

/-- MD_REGEX attempted at absolute position i of s. -/
def mdAt (s : List Char) (i : Nat) : Option MatchInfo :=
  match mdMatchAt (s.drop i) with
  | some (al, pl, t) =>
    some ⟨i, i + t, ⟨(s.drop i).take t⟩, ⟨(s.drop (i + 2)).take al⟩,
      ⟨(s.drop (i + 2 + al + 2)).take pl⟩⟩
  | none => none

/-- Leftmost match at a position no smaller than pos, as a sticky scan. -/
def findFrom (f : Nat → Option MatchInfo) (len pos : Nat) : Option MatchInfo :=
  ascSearch f (len + 1 - pos) pos

/-- The loop of String.matchAll over a global regex: each search resumes at
the end of the previous match, bumping by one on an empty match. -/
def matchAllAux (f : Nat → Option MatchInfo) (len : Nat) : Nat → Nat → List MatchInfo
  | 0, _ => []
  | fuel + 1, pos =>
    match findFrom f len pos with
    | none => []
    | some m =>
      m :: matchAllAux f len fuel (if m.start < m.stop then m.stop else m.start + 1)

/-- All WIKI_REGEX matches of s in scan order. -/
def matchAllW (s : List Char) : List MatchInfo :=
  matchAllAux (wikiAt s) s.length (s.length + 1) 0

/-- All MD_REGEX matches of s in scan order. -/
def matchAllM (s : List Char) : List MatchInfo :=
  matchAllAux (mdAt s) s.length (s.length + 1) 0

/-- GetSubstitution of ECMA-262 for a string search value, which has no
capture groups: dollar-dollar yields a dollar, dollar-ampersand the matched
text, dollar-backquote the part of the original string before the match,
dollar-apostrophe the part after it, and any other dollar stays literal.
The backquote and apostrophe characters are written by code point. -/
def getSubstitution (matched str : List Char) (pos : Nat) : List Char → List Char
  | [] => []
  | c :: rest =>
    if c = '$' then
      match rest with
      | [] => ['$']
      | d :: rest2 =>
        if d = '$' then '$' :: getSubstitution matched str pos rest2
        else if d = '&' then matched ++ getSubstitution matched str pos rest2
        else if d = Char.ofNat 96 then
          str.take pos ++ getSubstitution matched str pos rest2
        else if d = Char.ofNat 39 then
          str.drop (pos + matched.length) ++ getSubstitution matched str pos rest2
        else '$' :: d :: getSubstitution matched str pos rest2
    else c :: getSubstitution matched str pos rest

/-- JS String.replaceAll of a non-empty pattern: every occurrence found in
the original string is replaced by the GetSubstitution expansion of the
replacement template against the original string and the match position.
The fuel argument is the length of the scanned list. -/
def replaceAllAux (p rep str : List Char) : Nat → Nat → List Char → List Char
  | _, _, [] => []
  | 0, _, s => s
  | fuel + 1, pos, c :: s =>
    if !p.isEmpty && lsw p (c :: s) then
      getSubstitution p str pos rep
        ++ replaceAllAux p rep str fuel (pos + p.length) (s.drop (p.length - 1))
    else c :: replaceAllAux p rep str fuel (pos + 1) s

/-- JS String.replaceAll on strings. -/
def replaceAllStr (s pat rep : String) : String :=
  ⟨replaceAllAux pat.data rep.data s.data s.data.length 0 s.data⟩

/-- Hexadecimal digit value of a character, if any. -/
def hexVal (c : Char) : Option Nat :=
  if '0' ≤ c && c ≤ '9' then some (c.toNat - '0'.toNat)
  else if 'A' ≤ c && c ≤ 'F' then some (c.toNat - 'A'.toNat + 10)
  else if 'a' ≤ c && c ≤ 'f' then some (c.toNat - 'a'.toNat + 10)
  else none

/-- The escapes decodeURI keeps verbatim: the uriReserved characters and
the number sign. -/
def uriPreserved (c : Char) : Bool :=
  c = ';' || c = '/' || c = '?' || c = ':' || c = '@' || c = '&' || c = '='
    || c = '+' || c = '$' || c = ',' || c = '#'

/-- One percent escape: a percent sign and two hex digits yield a byte;
anything else at a percent sign is the URIError case. -/
def readByte : List Char → Option (Nat × List Char)
  | '%' :: h1 :: h2 :: rest =>
    match hexVal h1, hexVal h2 with
    | some a, some b => some (16 * a + b, rest)
    | _, _ => none
  | _ => none

/-- Continuation octets of a UTF-8 sequence: each must be a valid escape of
a byte between 0x80 and 0xBF. -/
def readCont : Nat → List Char → Option (List Nat × List Char)
  | 0, s => some ([], s)
  | n + 1, s =>
    match readByte s with
    | none => none
    | some (b, rest) =>
      if 128 ≤ b && b < 192 then
        match readCont n rest with
        | none => none
        | some (bs, rest2) => some (b :: bs, rest2)
      else none

/-- Scalar value of a UTF-8 sequence from its leading byte and continuation
octets, rejecting overlong forms, surrogates and out-of-range values. -/
def utf8Val (b0 : Nat) : List Nat → Option Nat
  | [b1] =>
    if 192 ≤ b0 && b0 < 224 then
      let v := (b0 - 192) * 64 + (b1 - 128)
      if 128 ≤ v then some v else none
    else none
  | [b1, b2] =>
    if 224 ≤ b0 && b0 < 240 then
      let v := (b0 - 224) * 4096 + (b1 - 128) * 64 + (b2 - 128)
      if 2048 ≤ v && !(55296 ≤ v && v < 57344) then some v else none
    else none
  | [b1, b2, b3] =>
    if 240 ≤ b0 && b0 < 248 then
      let v := (b0 - 240) * 262144 + (b1 - 128) * 4096
        + (b2 - 128) * 64 + (b3 - 128)
      if 65536 ≤ v && v ≤ 1114111 then some v else none
    else none
  | _ => none

/-- Continuation count announced by a UTF-8 leading byte: a lone
continuation byte or a byte of 0xF8 and above is the URIError case. -/
def contCount (b : Nat) : Option Nat :=
  if b < 128 then some 0
  else if 192 ≤ b && b < 224 then some 1
  else if 224 ≤ b && b < 240 then some 2
  else if 240 ≤ b && b < 248 then some 3
  else none

/-- The Decode abstract operation of ECMA-262 as invoked by decodeURI: a
percent sign must begin an escape of two hex digits, a single-byte escape
of a reserved character stays verbatim while any other single byte decodes
to its character, and a leading byte of 0x80 or above must open a valid
UTF-8 sequence; every violation is the thrown URIError, modelled as none.
A code point beyond 0xFFFF is emitted as its one scalar character where a
JS string holds the surrogate pair. -/
def decodeURIChars : Nat → List Char → Option (List Char)
  | 0, _ => none
  | _, [] => some []
  | fuel + 1, c :: rest =>
    if c = '%' then
      match readByte (c :: rest) with
      | none => none
      | some (b, rest2) =>
        if b < 128 then
          match decodeURIChars fuel rest2 with
          | none => none
          | some out =>
            if uriPreserved (Char.ofNat b) then
              some ('%' :: (rest.take 2 ++ out))
            else some (Char.ofNat b :: out)
        else
          match contCount b with
          | none => none
          | some n =>
            match readCont n rest2 with
            | none => none
            | some (bs, rest3) =>
              match utf8Val b bs with
              | none => none
              | some v =>
                match decodeURIChars fuel rest3 with
                | none => none
                | some out => some (Char.ofNat v :: out)
    else
      match decodeURIChars fuel rest with
      | none => none
      | some out => some (c :: out)

/-- The decodeURI builtin: none is the thrown URIError. -/
def jsDecodeURI (s : String) : Option String :=
  (decodeURIChars (s.data.length + 1) s.data).map (fun l => ⟨l⟩)

/-- Smallest body length k, at least 1, such that the closing delimiter
dash-dash-dash-newline of PROPERTIES_REGEX occurs right after the k body
characters following the opening dashes: the lazy plus grows from the
shortest body. -/
def firstClose (t : List Char) : Nat → Nat → Option Nat
  | 0, _ => none
  | fuel + 1, k =>
    if lsw ['-', '-', '-', '\n'] (t.drop (3 + k)) then some k
    else firstClose t fuel (k + 1)

/-- The single replacement value.replace(PROPERTIES_REGEX, "") performed by
the processor: PROPERTIES_REGEX is anchored at position zero, its body is a
lazy plus over any character, and the match is removed once. -/
def stripProperties (s : String) : String :=
  if lsw ['-', '-', '-'] s.data then
    match firstClose s.data s.data.length 1 with
    | some k => ⟨s.data.drop (3 + k + 4)⟩
    | none => s
  else s

/-- Node path.dirname scan (posix): from the end, skip trailing slashes,
then cut before the next slash, never at index zero. -/
def dirnameCutAux (p : List Char) : Bool → Nat → Option Nat
  | _, 0 => none
  | matched, i + 1 =>
    if p.getD (i + 1) ' ' = '/' then
      if matched then dirnameCutAux p matched i else some (i + 1)
    else dirnameCutAux p false i

/-- Node path.dirname (posix). -/
def dirnameStr (s : String) : String :=
  let p := s.data
  if p.length = 0 then "."
  else
    let hasRoot := p.getD 0 ' ' = '/'
    match dirnameCutAux p true (p.length - 1) with
    | none => if hasRoot then "/" else "."
    | some e => if hasRoot && e = 1 then "//" else ⟨p.take e⟩

/-- Index of the last dot of a base name, if any. -/
def lastDotIdx (b : List Char) : Option Nat :=
  match b.reverse.findIdx? (fun c => c = '.') with
  | none => none
  | some k => some (b.length - 1 - k)

/-- Name component of Node path.parse on a posix path: the base name without
its extension; a dot in first position, or a base of two dots, carries no
extension. -/
def parseNameChars (s : List Char) : List Char :=
  let b := (s.reverse.takeWhile (fun c => c ≠ '/')).reverse
  match lastDotIdx b with
  | none => b
  | some i => if i = 0 || b = ['.', '.'] then b else b.take i

/-- Name component of Node path.parse on strings. -/
def parseNameStr (s : String) : String := ⟨parseNameChars s.data⟩

/-- The Image record built by getImageLists and threaded through process. -/
structure Image where
  name : String
  path : String
  fullPath : String
  url : String
  source : String
deriving DecidableEq

/-- The placeholder record used to state positional hypotheses. -/
def defaultImage : Image := ⟨"", "", "", "", ""⟩

/-- The single recognised action name. -/
def ACTION_PUBLISH : String := "PUBLISH"

/-- Image built from one WIKI_REGEX match: an excalidraw name gets a literal
png suffix appended to the candidate path. -/
def mkWikiImage (attachmentLocation : String) (m : MatchInfo) : Image :=
  let name := m.cap1
  let path_name := if endsWithStr name ".excalidraw" then name ++ ".png" else name
  { name := name, path := attachmentLocation ++ "/" ++ path_name,
    source := m.raw, url := "", fullPath := "" }

/-- The markdown loop of getImageLists: remote http and https paths are
skipped, every other path is percent-decoded by the ambient decodeURI and
used as both name and path; a URIError thrown by decodeURI propagates out
of getImageLists, discarding everything, modelled as none. -/
def mdLoop (dec : String → Option String) : List MatchInfo → Option (List Image)
  | [] => some []
  | m :: ms =>
    if startsWithStr m.cap2 "http://" || startsWithStr m.cap2 "https://" then
      mdLoop dec ms
    else
      match dec m.cap2 with
      | none => none
      | some decodedPath =>
        match mdLoop dec ms with
        | none => none
        | some rest =>
          some
            ({ name := decodedPath, path := decodedPath, source := m.raw,
               url := "", fullPath := "" } :: rest)

/-- The getImageLists method: wiki matches first, then markdown matches,
with the ambient decodeURI passed explicitly; a URIError raised while
decoding a markdown path aborts the whole extraction. -/
def getImageLists (dec : String → Option String) (attachmentLocation : String)
    (value : String) : Option (List Image) :=
  match mdLoop dec (matchAllM value.data) with
  | none => none
  | some mdImgs =>
    some ((matchAllW value.data).map (mkWikiImage attachmentLocation) ++ mdImgs)

/-- The settings fields the processor reads. -/
structure PublishSettings where
  attachmentLocation : String
  imageAltText : Bool
  deleteAttachments : Bool
  replaceOriginalDoc : Bool
  ignoreProperties : Bool
deriving DecidableEq

/-- Result of one upload call of the injected uploader. -/
inductive UploadOutcome where
  | ok (url : String)
  | err (msg : String)
deriving DecidableEq

/-- The collaborator functions the processor consumes: the active editor
text, the adapter base path, getAvailablePathForAttachment, normalizePath,
the existence test behind getAbstractFileByPath, readBinary, the uploader,
and the ambient decodeURI. -/
structure Env where
  editorText : Option String
  basePath : String
  availablePath : String → String
  normalizePath : String → String
  fileNotNull : String → Bool
  readBinary : String → List Nat
  upload : List Nat → String → String → UploadOutcome
  decodeURI : String → Option String

/-- Trace of the resolution loop: the images submitted for upload with
their fullPath set, the notices raised, the paths passed to the existence
test, and the paths read. -/
structure ResolveOut where
  submitted : List Image
  notices : List String
  checks : List String
  reads : List String
deriving DecidableEq

/-- The notice raised when a resolved path has no backing file. -/
def locateNotice (name fullPath : String) : String :=
  "Can NOT locate " ++ name ++ " with " ++ fullPath
    ++ ", please check image path or attachment option in plugin setting!"

/-- The notice raised by the catch handler of a failed upload. -/
def uploadNotice (path msg : String) : String :=
  "Upload " ++ path ++ " failed, remote server returned an error: " ++ msg

/-- The fullPath the loop assigns to an image: the directory of the resolved
attachment path joined with the original name. -/
def fullPathOf (env : Env) (img : Image) : String :=
  dirnameStr (env.availablePath (env.normalizePath img.path)) ++ "/" ++ img.name

/-- The resolution loop of process: each image gets its fullPath, is checked
for existence, and is read and submitted; the loop breaks with a notice at
the first missing file. -/
def resolveLoop (env : Env) : List Image → ResolveOut
  | [] => ⟨[], [], [], []⟩
  | img :: rest =>
    let fp := fullPathOf env img
    if env.fileNotNull (env.normalizePath fp) then
      let out := resolveLoop env rest
      ⟨{ img with fullPath := fp } :: out.submitted, out.notices,
        env.normalizePath fp :: out.checks, fp :: out.reads⟩
    else
      ⟨[], [locateNotice img.name fp], [env.normalizePath fp], []⟩

/-- The upload submissions: each submitted image is read and uploaded with
its name and its base-path-qualified full path, all before any is awaited;
Promise.all later presents the outcomes in this submission order. -/
def uploadOutcomes (env : Env) (submitted : List Image) :
    List (Image × UploadOutcome) :=
  submitted.map (fun img =>
    (img, env.upload (env.readBinary img.fullPath) img.name
      (env.basePath ++ "/" ++ img.fullPath)))

/-- Did every submitted upload succeed? -/
def allOk (outs : List (Image × UploadOutcome)) : Bool :=
  outs.all (fun io =>
    match io.2 with
    | UploadOutcome.ok _ => true
    | UploadOutcome.err _ => false)

/-- The notices raised by the catch handlers of the failed uploads. -/
def failedNotices (outs : List (Image × UploadOutcome)) : List String :=
  outs.filterMap (fun io =>
    match io.2 with
    | UploadOutcome.err m => some (uploadNotice io.1.path m)
    | UploadOutcome.ok _ => none)

/-- The images as handed to the rewriter: each successful image carries its
returned url. -/
def enrichOk (outs : List (Image × UploadOutcome)) : List Image :=
  outs.map (fun io =>
    { io.1 with
      url :=
        match io.2 with
        | UploadOutcome.ok u => u
        | UploadOutcome.err _ => io.1.url })

/-- The alt text computed in the rewriter loop: the parsed name with
hyphens and underscores replaced by spaces when enabled, empty otherwise. -/
def altTextOf (settings : PublishSettings) (name : String) : String :=
  if settings.imageAltText then
    replaceAllStr (replaceAllStr (parseNameStr name) "-" " ") "_" " "
  else ""

/-- Alt text as the specification words it: the extensionless base name
with every hyphen and every underscore turned into a space. -/
def altSpecMap (name : String) : String :=
  ⟨(parseNameChars name.data).map (fun c => if c = '-' || c = '_' then ' ' else c)⟩

/-- The canonical replacement markup written for one image. -/
def canonicalForm (settings : PublishSettings) (img : Image) : String :=
  "![" ++ altTextOf settings img.name ++ "](" ++ img.url ++ ")"

/-- The rewriter loop: for each image in turn, every occurrence of its raw
span in the current text is replaced by the canonical form. -/
def rewriteSeq (settings : PublishSettings) (imgs : List Image)
    (value : String) : String :=
  imgs.foldl (fun v img => replaceAllStr v img.source (canonicalForm settings img)) value

/-- Everything observable at the end of a completed invocation. -/
structure FinalState where
  rewritten : String
  output : String
  editorWrite : Option String
  clipboard : Option String
  deletions : List String
  notices : List String
  threw : Bool
deriving DecidableEq

/-- A completed batch, a batch hung on a never-resolved wrapper promise,
or an invocation aborted by a URIError thrown inside getImageLists. -/
inductive ProcResult where
  | hang (notices : List String)
  | done (fin : FinalState)
  | uriError
deriving DecidableEq

/-- The tail of process once Promise.all has delivered all images: the
sequential rewrite, the per-image deletions, the optional editor write of
the pre-strip text, the optional header strip of the emitted output, and
the action dispatch that throws on any name other than PUBLISH. -/
def finishUp (env : Env) (settings : PublishSettings) (action : String)
    (value : String) (outs : List (Image × UploadOutcome))
    (resNotices : List String) : FinalState :=
  let resolved := enrichOk outs
  let value2 := rewriteSeq settings resolved value
  let deletions :=
    if settings.deleteAttachments then resolved.map (fun i => i.fullPath) else []
  let ew :=
    if settings.replaceOriginalDoc then env.editorText.map (fun _ => value2)
    else none
  let out := if settings.ignoreProperties then stripProperties value2 else value2
  if action = ACTION_PUBLISH then
    ⟨value2, out, ew, some out, deletions, resNotices ++ ["Copied to clipboard"], false⟩
  else
    ⟨value2, out, ew, none, deletions, resNotices, true⟩

/-- The process method: scan, propagating a URIError thrown by the scan,
resolve until the first miss, submit the uploads, and either hang on a
failed upload, whose wrapper promise never resolves, or complete the
rewrite and dispatch. -/
def process (env : Env) (settings : PublishSettings) (action : String) :
    ProcResult :=
  let value := env.editorText.getD ""
  match getImageLists env.decodeURI settings.attachmentLocation value with
  | none => ProcResult.uriError
  | some images =>
    let ro := resolveLoop env images
    let outs := uploadOutcomes env ro.submitted
    if (failedNotices outs).isEmpty then
      ProcResult.done (finishUp env settings action value outs ro.notices)
    else ProcResult.hang (ro.notices ++ failedNotices outs)

/-- The image list process extracts from the active document, none when
decodeURI throws on a markdown path. -/
def imagesOf (env : Env) (settings : PublishSettings) : Option (List Image) :=
  getImageLists env.decodeURI settings.attachmentLocation (env.editorText.getD "")

/-- An image with its fullPath assigned as the resolution loop does. -/
def withFullPath (env : Env) (img : Image) : Image :=
  { img with fullPath := fullPathOf env img }

/-- A body length k closes the header block of t when the closing delimiter
line follows the k body characters after the opening dashes, the body being
non-empty as the lazy plus requires. -/
def closesAt (t : List Char) (k : Nat) : Prop :=
  1 ≤ k ∧ lsw ['-', '-', '-', '\n'] (t.drop (3 + k)) = true

/-- Sample settings with every toggle off. -/
def settingsBase : PublishSettings := ⟨"assets", false, false, false, false⟩

/-- Sample settings with alt-text generation enabled. -/
def settingsAlt : PublishSettings := ⟨"assets", true, false, false, false⟩

/-- Sample settings with document replacement and header stripping enabled. -/
def settingsEmit : PublishSettings := ⟨"assets", false, false, true, true⟩

/-- Sample environment whose second attachment is missing. -/
def envTwoOneMissing : Env :=
  ⟨some "![[a.png]] ![[b.png]]", "base", fun p => p, fun p => p,
    fun p => p == "assets/a.png", fun _ => [], fun _ _ _ => UploadOutcome.ok "u",
    fun s => some s⟩

/-- Sample environment whose first upload fails with a transport error. -/
def envFirstUploadFails : Env :=
  ⟨some "![[x.png]] ![[y.png]]", "base", fun p => p, fun p => p,
    fun _ => true, fun _ => [],
    fun _ name _ =>
      if name == "x.png" then UploadOutcome.err "boom" else UploadOutcome.ok "u",
    fun s => some s⟩

/-- Sample environment with an inline embed before a wiki embed and a url
that re-introduces the inline raw span. -/
def envOrderSensitive : Env :=
  ⟨some "![x](b.png) ![[a.png]]", "base", fun p => p, fun p => p,
    fun _ => true, fun _ => [],
    fun _ name _ =>
      if name == "a.png" then UploadOutcome.ok "u![x](b.png)"
      else UploadOutcome.ok "u2",
    fun s => some s⟩

/-- Sample environment with one hyphen-underscore named attachment. -/
def envAltName : Env :=
  ⟨some "![[my-pic_1.png]]", "base", fun p => p, fun p => p,
    fun _ => true, fun _ => [], fun _ _ _ => UploadOutcome.ok "https://cdn/p.png",
    fun s => some s⟩

/-- Sample environment whose document opens with a metadata header block. -/
def envHeaderDoc : Env :=
  ⟨some "---\ntitle: x\n---\nbody ![[a.png]]", "base", fun p => p, fun p => p,
    fun _ => true, fun _ => [], fun _ _ _ => UploadOutcome.ok "u",
    fun s => some s⟩

/-- Sample environment without an active editor. -/
def envNoEditor : Env :=
  ⟨none, "base", fun p => p, fun p => p, fun _ => true, fun _ => [],
    fun _ _ _ => UploadOutcome.ok "u", fun s => some s⟩

/-- Sample environment whose one attachment name contains a dollar escape
that GetSubstitution interprets. -/
def envDollarName : Env :=
  ⟨some "![[a$&b.png]]", "base", fun p => p, fun p => p, fun _ => true,
    fun _ => [], fun _ _ _ => UploadOutcome.ok "u", fun s => some s⟩

/-- Sample environment with one excalidraw embed. -/
def envExcalidraw : Env :=
  ⟨some "![[d.excalidraw]]", "base", fun p => p, fun p => p, fun _ => true,
    fun _ => [], fun _ _ _ => UploadOutcome.ok "u", fun s => some s⟩

/-- The image list the scan extracts from the order-sensitive document. -/
def imgsOrderSensitive : List Image :=
  [⟨"a.png", "assets/a.png", "", "", "![[a.png]]"⟩,
    ⟨"b.png", "b.png", "", "", "![x](b.png)"⟩]

/-- The image list the scan extracts from the hyphen-underscore document. -/
def imgsAltName : List Image :=
  [⟨"my-pic_1.png", "assets/my-pic_1.png", "", "", "![[my-pic_1.png]]"⟩]

/-- The image list the scan extracts from the header document. -/
def imgsHeaderDoc : List Image :=
  [⟨"a.png", "assets/a.png", "", "", "![[a.png]]"⟩]

/-- A successful ascending search reports a success of f inside its range. -/
theorem ascSearch_eq_some {α : Type} (f : Nat → Option α) :
    ∀ (k n : Nat) (v : α), ascSearch f k n = some v →
      ∃ i, n ≤ i ∧ i < n + k ∧ f i = some v := by
  intro k
  induction k with
  | zero => intro n v h; simp [ascSearch] at h
  | succ k ih =>
    intro n v h
    cases hf : f n with
    | some w =>
      refine ⟨n, Nat.le_refl n, by omega, ?_⟩
      rw [hf]
      simpa [ascSearch, hf] using h
    | none =>
      rw [ascSearch, hf] at h
      obtain ⟨i, h1, h2, h3⟩ := ih (n + 1) v h
      exact ⟨i, by omega, by omega, h3⟩

/-- An ascending search returns the first success of f. -/
theorem ascSearch_first {α : Type} (f : Nat → Option α) :
    ∀ (k n i : Nat) (v : α), n ≤ i → i < n + k →
      (∀ j, n ≤ j → j < i → f j = none) → f i = some v →
      ascSearch f k n = some v := by
  intro k
  induction k with
  | zero => intro n i v h1 h2 _ _; omega
  | succ k ih =>
    intro n i v h1 h2 hnone hi
    by_cases hn : i = n
    · subst hn
      rw [ascSearch, hi]
    · have hf : f n = none := hnone n (Nat.le_refl n) (by omega)
      rw [ascSearch, hf]
      exact ih (n + 1) i v (by omega) (by omega)
        (fun j hj1 hj2 => hnone j (by omega) hj2) hi

/-- A successful descending search reports a success of f inside its range. -/
theorem descSearch_eq_some {α : Type} (f : Nat → Option α) :
    ∀ (J : Nat) (v : α), descSearch f J = some v →
      ∃ j, j ≤ J ∧ f j = some v := by
  intro J
  induction J with
  | zero => intro v h; exact ⟨0, Nat.le_refl 0, h⟩
  | succ J ih =>
    intro v h
    cases hf : f (J + 1) with
    | some w =>
      refine ⟨J + 1, Nat.le_refl _, ?_⟩
      rw [hf]
      simpa [descSearch, hf] using h
    | none =>
      rw [descSearch, hf] at h
      obtain ⟨j, h1, h2⟩ := ih v h
      exact ⟨j, by omega, h2⟩

/-- A descending search returns the topmost success of f. -/
theorem descSearch_topmost {α : Type} (f : Nat → Option α) :
    ∀ (J i : Nat) (v : α), i ≤ J →
      (∀ j, i < j → j ≤ J → f j = none) → f i = some v →
      descSearch f J = some v := by
  intro J
  induction J with
  | zero =>
    intro i v h1 _ hi
    have : i = 0 := by omega
    subst this
    exact hi
  | succ J ih =>
    intro i v h1 hnone hi
    by_cases hn : i = J + 1
    · subst hn
      rw [descSearch, hi]
    · have hf : f (J + 1) = none := hnone (J + 1) (by omega) (Nat.le_refl _)
      rw [descSearch, hf]
      exact ih i v (by omega) (fun j hj1 hj2 => hnone j hj1 (by omega)) hi

/-- A prefix is never longer than the list it starts. -/
theorem lsw_length : ∀ (p l : List Char), lsw p l = true → p.length ≤ l.length := by
  intro p
  induction p with
  | nil => intro l _; simp
  | cons c cs ih =>
    intro l h
    cases l with
    | nil => simp [lsw] at h
    | cons d ds =>
      rw [lsw, Bool.and_eq_true] at h
      simpa using ih ds h.2

/-- A list starts with itself in front of anything. -/
theorem lsw_append_self : ∀ (a b : List Char), lsw a (a ++ b) = true := by
  intro a
  induction a with
  | nil => intro b; rfl
  | cons c cs ih => intro b; simp [lsw, ih]

/-- Dropping inside the left part of an append. -/
theorem drop_append_le :
    ∀ (a b : List Char) (j : Nat), j ≤ a.length →
      (a ++ b).drop j = a.drop j ++ b := by
  intro a
  induction a with
  | nil =>
    intro b j h
    have : j = 0 := by simpa using h
    subst this
    rfl
  | cons c cs ih =>
    intro b j h
    cases j with
    | zero => rfl
    | succ j => simpa using ih b j (by simpa using h)

/-- Dropping past the left part of an append. -/
theorem drop_append_len :
    ∀ (a b : List Char) (k : Nat), (a ++ b).drop (a.length + k) = b.drop k := by
  intro a
  induction a with
  | nil => intro b k; simp
  | cons c cs ih =>
    intro b k
    have := ih b k
    simp only [List.cons_append, List.length_cons, Nat.succ_add, List.drop_succ_cons]
    exact this

/-- Taking inside the left part of an append. -/
theorem take_append_le :
    ∀ (a b : List Char) (j : Nat), j ≤ a.length →
      (a ++ b).take j = a.take j := by
  intro a
  induction a with
  | nil =>
    intro b j h
    have : j = 0 := by simpa using h
    subst this
    rfl
  | cons c cs ih =>
    intro b j h
    cases j with
    | zero => rfl
    | succ j => simpa using ih b j (by simpa using h)

/-- The dot run of a list of dot-matchable characters is the whole list. -/
theorem lineRun_append_all :
    ∀ (a b : List Char), (∀ c ∈ a, jsDot c = true) →
      lineRun (a ++ b) = a.length + lineRun b := by
  intro a
  induction a with
  | nil => intro b _; simp [lineRun]
  | cons c cs ih =>
    intro b h
    have hc : jsDot c = true := h c (by simp)
    have := ih b (fun d hd => h d (by simp [hd]))
    simp [lineRun, hc, this]
    omega

/-- A pattern free of closing brackets that starts a list extended with the
two closing brackets already starts the list itself. -/
theorem lsw_of_append_brk :
    ∀ (p a : List Char), ']' ∉ p → lsw p (a ++ [']', ']']) = true →
      lsw p a = true := by
  intro p
  induction p with
  | nil => intro a _ _; rfl
  | cons q qs ih =>
    intro a hq h
    cases a with
    | nil =>
      exfalso
      rw [List.nil_append, lsw, Bool.and_eq_true, decide_eq_true_eq] at h
      exact hq (by simp [h.1])
    | cons x xs =>
      rw [List.cons_append, lsw, Bool.and_eq_true] at h
      rw [lsw, Bool.and_eq_true]
      exact ⟨h.1, ih xs (fun hm => hq (by simp [hm])) h.2⟩

/-- A WIKI_REGEX match consumes at least its opening characters. -/
theorem wikiMatchAt_pos (s : List Char) (nl t : Nat)
    (h : wikiMatchAt s = some (nl, t)) : 0 < t := by
  unfold wikiMatchAt at h
  split at h
  · cases hb : wikiBody (s.drop 3) with
    | none => rw [hb] at h; exact absurd h (by simp)
    | some p =>
      rw [hb] at h
      obtain ⟨nl2, t2⟩ := p
      simp at h
      omega
  · exact absurd h (by simp)

/-- A WIKI_REGEX match starts where it was attempted and is non-empty. -/
theorem wikiAt_some (s : List Char) (i : Nat) (m : MatchInfo)
    (h : wikiAt s i = some m) : m.start = i ∧ m.start < m.stop := by
  unfold wikiAt at h
  cases hw : wikiMatchAt (s.drop i) with
  | none => rw [hw] at h; exact absurd h (by simp)
  | some p =>
    obtain ⟨nl, t⟩ := p
    rw [hw] at h
    have ht : 0 < t := wikiMatchAt_pos _ _ _ hw
    cases h
    simp
    omega

/-- An MD_REGEX match consumes at least its opening characters. -/
theorem mdMatchAt_pos (s : List Char) (al pl t : Nat)
    (h : mdMatchAt s = some (al, pl, t)) : 0 < t := by
  unfold mdMatchAt at h
  split at h
  · obtain ⟨j, _, hj⟩ := descSearch_eq_some _ _ _ h
    split at hj
    · cases hp : mdPath ((s.drop 2).drop (j + 2)) with
      | none => rw [hp] at hj; exact absurd hj (by simp)
      | some q =>
        obtain ⟨pl2, t2⟩ := q
        rw [hp] at hj
        simp at hj
        omega
    · exact absurd hj (by simp)
  · exact absurd h (by simp)

/-- An MD_REGEX match starts where it was attempted and is non-empty. -/
theorem mdAt_some (s : List Char) (i : Nat) (m : MatchInfo)
    (h : mdAt s i = some m) : m.start = i ∧ m.start < m.stop := by
  unfold mdAt at h
  cases hw : mdMatchAt (s.drop i) with
  | none => rw [hw] at h; exact absurd h (by simp)
  | some p =>
    obtain ⟨al, pl, t⟩ := p
    rw [hw] at h
    have ht : 0 < t := mdMatchAt_pos _ _ _ _ hw
    cases h
    simp
    omega

/-- A found match lies at or after the resume position. -/
theorem findFrom_some (f : Nat → Option MatchInfo) (len pos : Nat)
    (m : MatchInfo) (h : findFrom f len pos = some m) :
    ∃ i, pos ≤ i ∧ f i = some m := by
  obtain ⟨i, h1, _, h3⟩ := ascSearch_eq_some f _ _ _ h
  exact ⟨i, h1, h3⟩

/-- Every match produced from a resume position starts at or after it. -/
theorem matchAllAux_ge (f : Nat → Option MatchInfo) (len : Nat)
    (hf : ∀ i m, f i = some m → m.start = i ∧ m.start < m.stop) :
    ∀ (fuel pos : Nat) (m : MatchInfo),
      m ∈ matchAllAux f len fuel pos → pos ≤ m.start := by
  intro fuel
  induction fuel with
  | zero => intro pos m h; simp [matchAllAux] at h
  | succ fuel ih =>
    intro pos m h
    rw [matchAllAux] at h
    cases hm : findFrom f len pos with
    | none => rw [hm] at h; simp at h
    | some m0 =>
      rw [hm] at h
      simp at h
      obtain ⟨i, hi1, hi2⟩ := findFrom_some f len pos m0 hm
      have h0 := hf i m0 hi2
      rcases h with rfl | h
      · omega
      · have := ih _ m h
        split at this <;> omega

/-- The matches of one scan appear in strictly increasing position order. -/
theorem matchAllAux_chain (f : Nat → Option MatchInfo) (len : Nat)
    (hf : ∀ i m, f i = some m → m.start = i ∧ m.start < m.stop) :
    ∀ (fuel pos : Nat),
      List.Chain' (fun a b => a.start < b.start) (matchAllAux f len fuel pos) := by
  intro fuel
  induction fuel with
  | zero => intro pos; simp [matchAllAux]
  | succ fuel ih =>
    intro pos
    rw [matchAllAux]
    cases hm : findFrom f len pos with
    | none => simp
    | some m0 =>
      rw [List.chain'_cons']
      constructor
      · intro y hy
        have hmem : y ∈ matchAllAux f len fuel
            (if m0.start < m0.stop then m0.stop else m0.start + 1) :=
          List.mem_of_mem_head? hy
        have := matchAllAux_ge f len hf fuel _ y hmem
        obtain ⟨i, hi1, hi2⟩ := findFrom_some f len pos m0 hm
        have h0 := hf i m0 hi2
        split at this <;> omega
      · exact ih _

/-- C5 amended: whenever percent-decoding of the non-remote inline paths
succeeds, the matcher returns all bracketed-wiki matches first and all
inline-markup matches second, the two groups concatenated and never
interleaved, each group in strictly increasing left-to-right position
order; when decodeURI throws on one of those paths, the matcher throws and
returns nothing. -/
theorem c5_match_groups (dec : String → Option String) (loc value : String) :
    getImageLists dec loc value
      = (mdLoop dec (matchAllM value.data)).map
          (fun mdImgs => (matchAllW value.data).map (mkWikiImage loc) ++ mdImgs)
    ∧ List.Chain' (fun a b => a.start < b.start) (matchAllW value.data)
    ∧ List.Chain' (fun a b => a.start < b.start) (matchAllM value.data) := by
  refine ⟨?_, ?_, ?_⟩
  · unfold getImageLists
    cases mdLoop dec (matchAllM value.data) <;> rfl
  · exact matchAllAux_chain _ _ (fun i m h => wikiAt_some _ _ _ h) _ _
  · exact matchAllAux_chain _ _ (fun i m h => mdAt_some _ _ _ h) _ _

/-- C5 counterexample: the inline path of the single markdown match of this
document carries a percent sign that does not begin a two-hex-digit escape,
so decodeURI throws URIError and the matcher returns nothing instead of the
concatenated match groups. -/
theorem c5_uri_error_counterexample :
    getImageLists jsDecodeURI "assets" "![a](%.png)" = none
    ∧ (matchAllM ("![a](%.png)" : String).data).length = 1 := by
  refine ⟨by decide, by decide⟩

/-- Resolution on a list whose k-th image is the first one that fails the
existence test: the loop submits exactly the prefix before k, checks exactly
the prefix through k, reads exactly the prefix before k, and raises the one
locate notice for the k-th image. -/
theorem resolveLoop_halt (env : Env) :
    ∀ (k : Nat) (images : List Image), k < images.length →
      (∀ i, i < k →
        env.fileNotNull (env.normalizePath (fullPathOf env (images.getD i defaultImage))) = true) →
      env.fileNotNull (env.normalizePath (fullPathOf env (images.getD k defaultImage))) = false →
      resolveLoop env images =
        ⟨(images.take k).map (withFullPath env),
          [locateNotice (images.getD k defaultImage).name
            (fullPathOf env (images.getD k defaultImage))],
          (images.take (k + 1)).map (fun img => env.normalizePath (fullPathOf env img)),
          (images.take k).map (fullPathOf env)⟩ := by
  intro k
  induction k with
  | zero =>
    intro images hlen _ hmiss
    cases images with
    | nil => simp at hlen
    | cons img rest =>
      simp only [List.getD_cons_zero] at hmiss
      simp [resolveLoop, hmiss]
  | succ k ih =>
    intro images hlen hbefore hmiss
    cases images with
    | nil => simp at hlen
    | cons img rest =>
      have hhead : env.fileNotNull (env.normalizePath (fullPathOf env img)) = true := by
        have := hbefore 0 (by omega)
        simpa using this
      have htail := ih rest (by simpa using hlen)
        (fun i hi => by
          have := hbefore (i + 1) (by omega)
          simpa using this)
        (by simpa using hmiss)
      simp [resolveLoop, hhead, htail, withFullPath]

/-- When every upload succeeds, no catch handler raises a notice. -/
theorem failedNotices_nil :
    ∀ (outs : List (Image × UploadOutcome)), allOk outs = true →
      failedNotices outs = [] := by
  intro outs
  induction outs with
  | nil => intro _; rfl
  | cons io rest ih =>
    intro h
    rw [allOk, List.all_cons, Bool.and_eq_true] at h
    cases hio : io.2 with
    | ok u =>
      have := ih h.2
      simpa [failedNotices, List.filterMap_cons, hio] using this
    | err m =>
      rw [hio] at h
      simp at h

/-- When the extraction completes and every submitted upload succeeds, the
batch completes and process returns the finished state. -/
theorem process_done (env : Env) (settings : PublishSettings) (action : String)
    (images : List Image)
    (himg : getImageLists env.decodeURI settings.attachmentLocation
      (env.editorText.getD "") = some images)
    (h : allOk (uploadOutcomes env (resolveLoop env images).submitted) = true) :
    process env settings action
      = ProcResult.done (finishUp env settings action (env.editorText.getD "")
          (uploadOutcomes env (resolveLoop env images).submitted)
          (resolveLoop env images).notices) := by
  have h2 := failedNotices_nil _ h
  simp only [process]
  rw [himg]
  simp [h2]

/-- C2: when the k-th extracted reference is the first whose resolved full
path does not exist, resolution halts at k with the single locate notice:
references after k are never checked, read or submitted, reference k itself
is checked but neither read nor submitted, and when the already-submitted
prefix uploads all succeed the batch still completes, with the substitution
applied to exactly those prefix references. -/
theorem c2_halt_on_first_missing (env : Env) (settings : PublishSettings) (k : Nat)
    (images : List Image) (himg : imagesOf env settings = some images)
    (hk : k < images.length)
    (hbefore : ∀ i, i < k → env.fileNotNull (env.normalizePath (fullPathOf env
      (images.getD i defaultImage))) = true)
    (hmiss : env.fileNotNull (env.normalizePath (fullPathOf env
      (images.getD k defaultImage))) = false) :
    resolveLoop env images =
      ⟨(images.take k).map (withFullPath env),
        [locateNotice (images.getD k defaultImage).name
          (fullPathOf env (images.getD k defaultImage))],
        (images.take (k + 1)).map
          (fun img => env.normalizePath (fullPathOf env img)),
        (images.take k).map (fullPathOf env)⟩
    ∧ (allOk (uploadOutcomes env
          ((images.take k).map (withFullPath env))) = true →
        process env settings ACTION_PUBLISH
          = ProcResult.done (finishUp env settings ACTION_PUBLISH
              (env.editorText.getD "")
              (uploadOutcomes env ((images.take k).map (withFullPath env)))
              [locateNotice (images.getD k defaultImage).name
                (fullPathOf env (images.getD k defaultImage))])
        ∧ (finishUp env settings ACTION_PUBLISH (env.editorText.getD "")
            (uploadOutcomes env ((images.take k).map (withFullPath env)))
            [locateNotice (images.getD k defaultImage).name
              (fullPathOf env (images.getD k defaultImage))]).rewritten
          = rewriteSeq settings (enrichOk (uploadOutcomes env
              ((images.take k).map (withFullPath env))))
              (env.editorText.getD "")) := by
  have h1 : resolveLoop env images =
      ⟨(images.take k).map (withFullPath env),
        [locateNotice (images.getD k defaultImage).name
          (fullPathOf env (images.getD k defaultImage))],
        (images.take (k + 1)).map
          (fun img => env.normalizePath (fullPathOf env img)),
        (images.take k).map (fullPathOf env)⟩ :=
    resolveLoop_halt env k images hk hbefore hmiss
  refine ⟨h1, fun hall => ?_⟩
  have hall2 : allOk (uploadOutcomes env (resolveLoop env images).submitted) = true := by
    rw [h1]
    exact hall
  have hp := process_done env settings ACTION_PUBLISH images himg hall2
  rw [h1] at hp
  refine ⟨hp, ?_⟩
  simp [finishUp, ACTION_PUBLISH]

/-- Witness for c2_halt_on_first_missing: a concrete two-image document
whose second attachment is missing. -/
theorem c2_halt_on_first_missing_witness :
    (imagesOf envTwoOneMissing settingsBase
        = some [(⟨"a.png", "assets/a.png", "", "", "![[a.png]]"⟩ : Image),
        ⟨"b.png", "assets/b.png", "", "", "![[b.png]]"⟩]
      ∧ 1 < ([(⟨"a.png", "assets/a.png", "", "", "![[a.png]]"⟩ : Image),
        ⟨"b.png", "assets/b.png", "", "", "![[b.png]]"⟩]).length
      ∧ (∀ i, i < 1 → envTwoOneMissing.fileNotNull (envTwoOneMissing.normalizePath
          (fullPathOf envTwoOneMissing
            (([(⟨"a.png", "assets/a.png", "", "", "![[a.png]]"⟩ : Image),
        ⟨"b.png", "assets/b.png", "", "", "![[b.png]]"⟩]).getD i defaultImage))) = true)
      ∧ envTwoOneMissing.fileNotNull (envTwoOneMissing.normalizePath
          (fullPathOf envTwoOneMissing
            (([(⟨"a.png", "assets/a.png", "", "", "![[a.png]]"⟩ : Image),
        ⟨"b.png", "assets/b.png", "", "", "![[b.png]]"⟩]).getD 1 defaultImage))) = false)
    ∧ (resolveLoop envTwoOneMissing ([(⟨"a.png", "assets/a.png", "", "", "![[a.png]]"⟩ : Image),
        ⟨"b.png", "assets/b.png", "", "", "![[b.png]]"⟩]) =
        ⟨(([(⟨"a.png", "assets/a.png", "", "", "![[a.png]]"⟩ : Image),
        ⟨"b.png", "assets/b.png", "", "", "![[b.png]]"⟩]).take 1).map (withFullPath envTwoOneMissing),
          [locateNotice (([(⟨"a.png", "assets/a.png", "", "", "![[a.png]]"⟩ : Image),
        ⟨"b.png", "assets/b.png", "", "", "![[b.png]]"⟩]).getD 1 defaultImage).name
            (fullPathOf envTwoOneMissing
              (([(⟨"a.png", "assets/a.png", "", "", "![[a.png]]"⟩ : Image),
        ⟨"b.png", "assets/b.png", "", "", "![[b.png]]"⟩]).getD 1 defaultImage))],
          (([(⟨"a.png", "assets/a.png", "", "", "![[a.png]]"⟩ : Image),
        ⟨"b.png", "assets/b.png", "", "", "![[b.png]]"⟩]).take (1 + 1)).map
            (fun img => envTwoOneMissing.normalizePath (fullPathOf envTwoOneMissing img)),
          (([(⟨"a.png", "assets/a.png", "", "", "![[a.png]]"⟩ : Image),
        ⟨"b.png", "assets/b.png", "", "", "![[b.png]]"⟩]).take 1).map (fullPathOf envTwoOneMissing)⟩
      ∧ (allOk (uploadOutcomes envTwoOneMissing
            ((([(⟨"a.png", "assets/a.png", "", "", "![[a.png]]"⟩ : Image),
        ⟨"b.png", "assets/b.png", "", "", "![[b.png]]"⟩]).take 1).map
              (withFullPath envTwoOneMissing))) = true →
          process envTwoOneMissing settingsBase ACTION_PUBLISH
            = ProcResult.done (finishUp envTwoOneMissing settingsBase ACTION_PUBLISH
                (envTwoOneMissing.editorText.getD "")
                (uploadOutcomes envTwoOneMissing
                  ((([(⟨"a.png", "assets/a.png", "", "", "![[a.png]]"⟩ : Image),
        ⟨"b.png", "assets/b.png", "", "", "![[b.png]]"⟩]).take 1).map
                    (withFullPath envTwoOneMissing)))
                [locateNotice (([(⟨"a.png", "assets/a.png", "", "", "![[a.png]]"⟩ : Image),
        ⟨"b.png", "assets/b.png", "", "", "![[b.png]]"⟩]).getD 1 defaultImage).name
                  (fullPathOf envTwoOneMissing
                    (([(⟨"a.png", "assets/a.png", "", "", "![[a.png]]"⟩ : Image),
        ⟨"b.png", "assets/b.png", "", "", "![[b.png]]"⟩]).getD 1 defaultImage))])
          ∧ (finishUp envTwoOneMissing settingsBase ACTION_PUBLISH
              (envTwoOneMissing.editorText.getD "")
              (uploadOutcomes envTwoOneMissing
                ((([(⟨"a.png", "assets/a.png", "", "", "![[a.png]]"⟩ : Image),
        ⟨"b.png", "assets/b.png", "", "", "![[b.png]]"⟩]).take 1).map
                  (withFullPath envTwoOneMissing)))
              [locateNotice (([(⟨"a.png", "assets/a.png", "", "", "![[a.png]]"⟩ : Image),
        ⟨"b.png", "assets/b.png", "", "", "![[b.png]]"⟩]).getD 1 defaultImage).name
                (fullPathOf envTwoOneMissing
                  (([(⟨"a.png", "assets/a.png", "", "", "![[a.png]]"⟩ : Image),
        ⟨"b.png", "assets/b.png", "", "", "![[b.png]]"⟩]).getD 1 defaultImage))]).rewritten
            = rewriteSeq settingsBase (enrichOk (uploadOutcomes envTwoOneMissing
                ((([(⟨"a.png", "assets/a.png", "", "", "![[a.png]]"⟩ : Image),
        ⟨"b.png", "assets/b.png", "", "", "![[b.png]]"⟩]).take 1).map
                  (withFullPath envTwoOneMissing))))
                (envTwoOneMissing.editorText.getD ""))) :=
  ⟨⟨by decide, by decide, by decide, by decide⟩,
    c2_halt_on_first_missing envTwoOneMissing settingsBase 1 _ (by decide) (by decide)
      (by decide) (by decide)⟩

/-- C1 evaluation: with two resolved references whose first upload fails,
the catch handler raises the transport notice naming the reference and the
message, but its wrapper promise is never resolved, so Promise.all never
settles: the invocation hangs and the rewriter never runs on the surviving
successful reference. -/
theorem c1_upload_failure_hangs :
    process envFirstUploadFails settingsBase ACTION_PUBLISH
      = ProcResult.hang
          ["Upload assets/x.png failed, remote server returned an error: boom"] := by
  decide

/-- A replacement template without a dollar sign is spliced verbatim by
GetSubstitution. -/
theorem getSubstitution_no_dollar (matched str : List Char) (pos : Nat) :
    ∀ (rep : List Char), ('$' : Char) ∉ rep →
      getSubstitution matched str pos rep = rep := by
  intro rep
  induction rep with
  | nil => intro _; rfl
  | cons c rest ih =>
    intro h
    have hc : c ≠ '$' := fun hh => h (by simp [hh])
    have hstep : getSubstitution matched str pos (c :: rest)
        = c :: getSubstitution matched str pos rest := by
      rw [getSubstitution.eq_def]
      simp [hc]
    rw [hstep, ih (fun hm => h (by simp [hm]))]

/-- A one-character replacement template is spliced verbatim. -/
theorem getSubstitution_single (matched str : List Char) (pos : Nat) (d : Char) :
    getSubstitution matched str pos [d] = [d] := by
  by_cases hd : d = '$'
  · subst hd
    rfl
  · refine getSubstitution_no_dollar matched str pos [d] ?_
    intro hm
    rw [List.mem_singleton] at hm
    exact hd hm.symm

/-- Replacement of a single character pattern by a single character is a
character map. -/
theorem replaceAllAux_single (c d : Char) (str : List Char) :
    ∀ (fuel pos : Nat) (s : List Char), s.length ≤ fuel →
      replaceAllAux [c] [d] str fuel pos s
        = s.map (fun x => if x = c then d else x) := by
  intro fuel
  induction fuel with
  | zero =>
    intro pos s h
    cases s with
    | nil => rfl
    | cons x xs => simp at h
  | succ fuel ih =>
    intro pos s h
    cases s with
    | nil => rfl
    | cons x xs =>
      rw [replaceAllAux]
      by_cases hx : x = c
      · subst hx
        have hcond : (!([x] : List Char).isEmpty && lsw [x] (x :: xs)) = true := by
          simp [lsw]
        rw [if_pos hcond]
        have hdrop : xs.drop (([x] : List Char).length - 1) = xs := by simp
        rw [hdrop, ih (pos + ([x] : List Char).length) xs (by simpa using h)]
        rw [getSubstitution_single]
        simp
      · have hnot : decide (c = x) = false := by
          simp only [decide_eq_false_iff_not]
          exact fun hh => hx hh.symm
        have hl : lsw [c] (x :: xs) = false := by
          show (decide (c = x) && lsw [] xs) = false
          rw [hnot]
          rfl
        rw [if_neg (by simp [hl])]
        rw [ih (pos + 1) xs (by simpa using h)]
        simp [hx]

/-- Composing the hyphen replacement with the underscore replacement maps
both characters to a space at once. -/
theorem map_dash_underscore (L : List Char) :
    (L.map (fun x => if x = '-' then ' ' else x)).map (fun x => if x = '_' then ' ' else x)
      = L.map (fun c => if c = '-' || c = '_' then ' ' else c) := by
  induction L with
  | nil => rfl
  | cons c cs ih =>
    simp only [List.map_cons, ih]
    congr 1
    by_cases h1 : c = '-' <;> by_cases h2 : c = '_' <;> simp [h1, h2]

/-- The two sequential replaceAll calls of the rewriter compute exactly the
alt text the specification describes. -/
theorem altTextOf_eq (settings : PublishSettings) (name : String) :
    altTextOf settings name
      = if settings.imageAltText then altSpecMap name else "" := by
  unfold altTextOf
  by_cases h : settings.imageAltText
  · simp only [h, if_true]
    have step1 : replaceAllStr (parseNameStr name) "-" " "
        = ⟨(parseNameChars name.data).map (fun x => if x = '-' then ' ' else x)⟩ := by
      show (⟨replaceAllAux ['-'] [' '] (parseNameChars name.data)
        (parseNameChars name.data).length 0 (parseNameChars name.data)⟩ : String) = _
      exact congrArg String.mk (replaceAllAux_single '-' ' ' _ _ _ _ (Nat.le_refl _))
    rw [step1]
    have step2 : replaceAllStr
        (⟨(parseNameChars name.data).map (fun x => if x = '-' then ' ' else x)⟩ : String)
        "_" " "
        = ⟨((parseNameChars name.data).map (fun x => if x = '-' then ' ' else x)).map
            (fun x => if x = '_' then ' ' else x)⟩ := by
      show (⟨replaceAllAux ['_'] [' ']
        ((parseNameChars name.data).map (fun x => if x = '-' then ' ' else x))
        ((parseNameChars name.data).map (fun x => if x = '-' then ' ' else x)).length 0
        ((parseNameChars name.data).map (fun x => if x = '-' then ' ' else x))⟩ : String) = _
      exact congrArg String.mk (replaceAllAux_single '_' ' ' _ _ _ _ (Nat.le_refl _))
    rw [step2]
    unfold altSpecMap
    exact congrArg String.mk (map_dash_underscore _)
  · simp [h]

/-- Folds of pointwise equal functions agree. -/
theorem foldl_fun_congr {α β : Type} (f g : β → α → β)
    (hfg : ∀ b a, f b a = g b a) :
    ∀ (l : List α) (b : β), l.foldl f b = l.foldl g b := by
  intro l
  induction l with
  | nil => intro b; rfl
  | cons a as ih => intro b; rw [List.foldl_cons, List.foldl_cons, hfg, ih]

/-- The rewritten text of a finished batch is the sequential fold of the
replacements over the enriched results. -/
theorem finishUp_rewritten (env : Env) (settings : PublishSettings)
    (action value : String) (outs : List (Image × UploadOutcome))
    (resNotices : List String) :
    (finishUp env settings action value outs resNotices).rewritten
      = rewriteSeq settings (enrichOk outs) value := by
  by_cases ha : action = ACTION_PUBLISH <;> simp [finishUp, ha]

/-- The emitted output of a finished batch is the rewritten text, header
stripped exactly when stripping is enabled. -/
theorem finishUp_output (env : Env) (settings : PublishSettings)
    (action value : String) (outs : List (Image × UploadOutcome))
    (resNotices : List String) :
    (finishUp env settings action value outs resNotices).output
      = (if settings.ignoreProperties then
          stripProperties (rewriteSeq settings (enrichOk outs) value)
        else rewriteSeq settings (enrichOk outs) value) := by
  by_cases ha : action = ACTION_PUBLISH <;> simp [finishUp, ha]

/-- The editor write of a finished batch is the pre-strip rewritten text,
written exactly when replacement is enabled and an editor is active. -/
theorem finishUp_editorWrite (env : Env) (settings : PublishSettings)
    (action value : String) (outs : List (Image × UploadOutcome))
    (resNotices : List String) :
    (finishUp env settings action value outs resNotices).editorWrite
      = (if settings.replaceOriginalDoc then
          env.editorText.map (fun _ => rewriteSeq settings (enrichOk outs) value)
        else none) := by
  by_cases ha : action = ACTION_PUBLISH <;> simp [finishUp, ha]

/-- C3 amended: when every submitted upload succeeds the batch completes,
and the rewriter folds the replacements sequentially and cumulatively over
the aggregated results in their submission order, which Promise.all
preserves regardless of settle order. -/
theorem c3_submission_order (env : Env) (settings : PublishSettings)
    (images : List Image) (himg : imagesOf env settings = some images)
    (h : allOk (uploadOutcomes env
      (resolveLoop env images).submitted) = true) :
    process env settings ACTION_PUBLISH
      = ProcResult.done (finishUp env settings ACTION_PUBLISH (env.editorText.getD "")
          (uploadOutcomes env (resolveLoop env images).submitted)
          (resolveLoop env images).notices)
    ∧ (finishUp env settings ACTION_PUBLISH (env.editorText.getD "")
        (uploadOutcomes env (resolveLoop env images).submitted)
        (resolveLoop env images).notices).rewritten
      = (enrichOk (uploadOutcomes env
            (resolveLoop env images).submitted)).foldl
          (fun v img => replaceAllStr v img.source (canonicalForm settings img))
          (env.editorText.getD "") := by
  constructor
  · exact process_done env settings ACTION_PUBLISH images himg h
  · simp [finishUp, rewriteSeq, ACTION_PUBLISH]

/-- C3 counterexample: a document whose inline embed appears before its wiki
embed, with an upload url that re-introduces the inline raw span. The code
applies the wiki substitution first (submission order), so the re-introduced
span is substituted as well; applying the same substitutions in the reversed
settle order would leave it, so the result depends on following submission
order, not settle order. -/
theorem c3_settle_order_counterexample :
    (process envOrderSensitive settingsBase ACTION_PUBLISH
      = ProcResult.done ⟨"![](u2) ![](u![](u2))", "![](u2) ![](u![](u2))", none,
          some "![](u2) ![](u![](u2))", [], ["Copied to clipboard"], false⟩)
    ∧ (rewriteSeq settingsBase
        [⟨"a.png", "assets/a.png", "assets/a.png", "u![x](b.png)", "![[a.png]]"⟩,
         ⟨"b.png", "b.png", "./b.png", "u2", "![x](b.png)"⟩]
        "![x](b.png) ![[a.png]]"
      = "![](u2) ![](u![](u2))")
    ∧ (rewriteSeq settingsBase
        [⟨"b.png", "b.png", "./b.png", "u2", "![x](b.png)"⟩,
         ⟨"a.png", "assets/a.png", "assets/a.png", "u![x](b.png)", "![[a.png]]"⟩]
        "![x](b.png) ![[a.png]]"
      ≠ "![](u2) ![](u![](u2))") := by
  refine ⟨by decide, by decide, by decide⟩

/-- Witness for c3_submission_order at the order-sensitive document. -/
theorem c3_submission_order_witness :
    (imagesOf envOrderSensitive settingsBase = some imgsOrderSensitive
      ∧ allOk (uploadOutcomes envOrderSensitive
        (resolveLoop envOrderSensitive imgsOrderSensitive).submitted) = true)
    ∧ (process envOrderSensitive settingsBase ACTION_PUBLISH
        = ProcResult.done (finishUp envOrderSensitive settingsBase ACTION_PUBLISH
            (envOrderSensitive.editorText.getD "")
            (uploadOutcomes envOrderSensitive
              (resolveLoop envOrderSensitive imgsOrderSensitive).submitted)
            (resolveLoop envOrderSensitive imgsOrderSensitive).notices)
      ∧ (finishUp envOrderSensitive settingsBase ACTION_PUBLISH
          (envOrderSensitive.editorText.getD "")
          (uploadOutcomes envOrderSensitive
            (resolveLoop envOrderSensitive imgsOrderSensitive).submitted)
          (resolveLoop envOrderSensitive imgsOrderSensitive).notices).rewritten
        = (enrichOk (uploadOutcomes envOrderSensitive
              (resolveLoop envOrderSensitive imgsOrderSensitive).submitted)).foldl
            (fun v img => replaceAllStr v img.source (canonicalForm settingsBase img))
            (envOrderSensitive.editorText.getD "")) :=
  ⟨⟨by decide, by decide⟩,
    c3_submission_order envOrderSensitive settingsBase imgsOrderSensitive
      (by decide) (by decide)⟩

/-- C4 counterexample: an attachment whose name carries a dollar-ampersand
escape. The replacement template passes through string.replaceAll, whose
GetSubstitution step expands the escape to the matched raw span, so the
substituted markup is not the literal template: the alt text position holds
a-bang-brackets instead of the computed alt text. -/
theorem c4_dollar_counterexample :
    process envDollarName settingsAlt ACTION_PUBLISH
      = ProcResult.done ⟨"![a![[a$&b.png]]b](u)", "![a![[a$&b.png]]b](u)", none,
          some "![a![[a$&b.png]]b](u)", [], ["Copied to clipboard"], false⟩
    ∧ ("![a![[a$&b.png]]b](u)" : String)
      ≠ "![" ++ altTextOf settingsAlt "a$&b.png" ++ "](" ++ "u" ++ ")" := by
  refine ⟨by decide, by decide⟩

/-- C4 amended: when the batch completes, the rewriter replaces, for each
uploaded reference in turn, every occurrence of its raw span in the current
text by the result of splicing the template bang-bracket-altText-paren-url
through GetSubstitution at that occurrence, where the alt text is the
extensionless base name with every hyphen and every underscore turned into
a space when alt-text generation is enabled and the empty string otherwise;
the template is spliced verbatim exactly when it contains no dollar sign. -/
theorem c4_canonical_rewrite (env : Env) (settings : PublishSettings) (action : String)
    (images : List Image) (himg : imagesOf env settings = some images)
    (h : allOk (uploadOutcomes env
      (resolveLoop env images).submitted) = true) :
    process env settings action
      = ProcResult.done (finishUp env settings action (env.editorText.getD "")
          (uploadOutcomes env (resolveLoop env images).submitted)
          (resolveLoop env images).notices)
    ∧ (finishUp env settings action (env.editorText.getD "")
        (uploadOutcomes env (resolveLoop env images).submitted)
        (resolveLoop env images).notices).rewritten
      = (enrichOk (uploadOutcomes env
            (resolveLoop env images).submitted)).foldl
          (fun v img => replaceAllStr v img.source
            ("![" ++ (if settings.imageAltText then altSpecMap img.name else "")
              ++ "](" ++ img.url ++ ")"))
          (env.editorText.getD "")
    ∧ (∀ (m s rep : List Char) (pos : Nat), ('$' : Char) ∉ rep →
        getSubstitution m s pos rep = rep) := by
  refine ⟨process_done env settings action images himg h, ?_,
    fun m s rep pos hrep => getSubstitution_no_dollar m s pos rep hrep⟩
  rw [finishUp_rewritten]
  unfold rewriteSeq
  exact foldl_fun_congr _ _
    (fun v img => by rw [canonicalForm, altTextOf_eq]) _ _

/-- Witness for c4_canonical_rewrite at a concrete hyphen-underscore name. -/
theorem c4_canonical_rewrite_witness :
    (imagesOf envAltName settingsAlt = some imgsAltName
      ∧ allOk (uploadOutcomes envAltName
        (resolveLoop envAltName imgsAltName).submitted) = true)
    ∧ (process envAltName settingsAlt ACTION_PUBLISH
        = ProcResult.done (finishUp envAltName settingsAlt ACTION_PUBLISH
            (envAltName.editorText.getD "")
            (uploadOutcomes envAltName
              (resolveLoop envAltName imgsAltName).submitted)
            (resolveLoop envAltName imgsAltName).notices)
      ∧ (finishUp envAltName settingsAlt ACTION_PUBLISH
          (envAltName.editorText.getD "")
          (uploadOutcomes envAltName
            (resolveLoop envAltName imgsAltName).submitted)
          (resolveLoop envAltName imgsAltName).notices).rewritten
        = (enrichOk (uploadOutcomes envAltName
              (resolveLoop envAltName imgsAltName).submitted)).foldl
            (fun v img => replaceAllStr v img.source
              ("![" ++ (if settingsAlt.imageAltText then altSpecMap img.name else "")
                ++ "](" ++ img.url ++ ")"))
            (envAltName.editorText.getD "")
      ∧ (∀ (m s rep : List Char) (pos : Nat), ('$' : Char) ∉ rep →
          getSubstitution m s pos rep = rep)) :=
  ⟨⟨by decide, by decide⟩,
    c4_canonical_rewrite envAltName settingsAlt ACTION_PUBLISH imgsAltName
      (by decide) (by decide)⟩

/-- A found closing position closes the block and no smaller candidate in
the searched range does. -/
theorem firstClose_spec (t : List Char) :
    ∀ (fuel k0 k : Nat), firstClose t fuel k0 = some k →
      k0 ≤ k ∧ lsw ['-', '-', '-', '\n'] (t.drop (3 + k)) = true
        ∧ ∀ j, k0 ≤ j → j < k → lsw ['-', '-', '-', '\n'] (t.drop (3 + j)) = false := by
  intro fuel
  induction fuel with
  | zero => intro k0 k h; simp [firstClose] at h
  | succ fuel ih =>
    intro k0 k h
    rw [firstClose] at h
    by_cases hc : lsw ['-', '-', '-', '\n'] (t.drop (3 + k0)) = true
    · rw [if_pos hc] at h
      cases h
      exact ⟨Nat.le_refl _, hc, fun j h1 h2 => by omega⟩
    · rw [if_neg hc] at h
      obtain ⟨h1, h2, h3⟩ := ih (k0 + 1) k h
      refine ⟨by omega, h2, fun j hj1 hj2 => ?_⟩
      by_cases hj : j = k0
      · subst hj
        exact Bool.not_eq_true _ |>.mp hc
      · exact h3 j (by omega) hj2

/-- If some closing position exists in range, the search finds one. -/
theorem firstClose_complete (t : List Char) :
    ∀ (fuel k0 k : Nat), lsw ['-', '-', '-', '\n'] (t.drop (3 + k)) = true →
      k0 ≤ k → k < k0 + fuel → ∃ k2, firstClose t fuel k0 = some k2 := by
  intro fuel
  induction fuel with
  | zero => intro k0 k _ _ _; omega
  | succ fuel ih =>
    intro k0 k hk h1 h2
    rw [firstClose]
    by_cases hc : lsw ['-', '-', '-', '\n'] (t.drop (3 + k0)) = true
    · exact ⟨k0, by rw [if_pos hc]⟩
    · rw [if_neg hc]
      have hne : k0 ≠ k := fun he => hc (he ▸ hk)
      exact ih (k0 + 1) k hk (by omega) (by omega)

/-- C7: with header stripping and document replacement enabled, a completed
batch writes the pre-strip rewritten text back to the live document while
the emitted and copied output is the rewritten text with the leading
metadata block removed exactly once; the removal only applies to text
opening with the dashes at position zero, and it cuts at the first closing
delimiter, keeping the remainder verbatim. -/
theorem c7_header_strip (env : Env) (settings : PublishSettings)
    (images : List Image) (himg : imagesOf env settings = some images)
    (hP : settings.ignoreProperties = true) (hR : settings.replaceOriginalDoc = true)
    (hEd : env.editorText.isSome = true)
    (h : allOk (uploadOutcomes env
      (resolveLoop env images).submitted) = true) :
    process env settings ACTION_PUBLISH
      = ProcResult.done (finishUp env settings ACTION_PUBLISH (env.editorText.getD "")
          (uploadOutcomes env (resolveLoop env images).submitted)
          (resolveLoop env images).notices)
    ∧ (finishUp env settings ACTION_PUBLISH (env.editorText.getD "")
        (uploadOutcomes env (resolveLoop env images).submitted)
        (resolveLoop env images).notices).editorWrite
      = some ((finishUp env settings ACTION_PUBLISH (env.editorText.getD "")
          (uploadOutcomes env (resolveLoop env images).submitted)
          (resolveLoop env images).notices).rewritten)
    ∧ (finishUp env settings ACTION_PUBLISH (env.editorText.getD "")
        (uploadOutcomes env (resolveLoop env images).submitted)
        (resolveLoop env images).notices).output
      = stripProperties ((finishUp env settings ACTION_PUBLISH (env.editorText.getD "")
          (uploadOutcomes env (resolveLoop env images).submitted)
          (resolveLoop env images).notices).rewritten)
    ∧ (finishUp env settings ACTION_PUBLISH (env.editorText.getD "")
        (uploadOutcomes env (resolveLoop env images).submitted)
        (resolveLoop env images).notices).clipboard
      = some ((finishUp env settings ACTION_PUBLISH (env.editorText.getD "")
          (uploadOutcomes env (resolveLoop env images).submitted)
          (resolveLoop env images).notices).output)
    ∧ (∀ u : String, stripProperties u ≠ u → lsw ['-', '-', '-'] u.data = true)
    ∧ (∀ (u : String) (k : Nat), lsw ['-', '-', '-'] u.data = true →
        closesAt u.data k →
        ∃ k0, closesAt u.data k0 ∧ k0 ≤ k
          ∧ (∀ j, 1 ≤ j → j < k0 → ¬ closesAt u.data j)
          ∧ stripProperties u = ⟨u.data.drop (3 + k0 + 4)⟩) := by
  obtain ⟨t0, ht0⟩ := Option.isSome_iff_exists.mp hEd
  refine ⟨process_done env settings ACTION_PUBLISH images himg h, ?_, ?_, ?_, ?_, ?_⟩
  · rw [finishUp_editorWrite, finishUp_rewritten, hR, if_pos rfl, ht0]
    rfl
  · rw [finishUp_output, finishUp_rewritten, hP, if_pos rfl]
  · simp [finishUp]
  · intro u hu
    by_cases hl : lsw ['-', '-', '-'] u.data = true
    · exact hl
    · exact absurd (by unfold stripProperties; rw [if_neg hl]) hu
  · intro u k hl hk
    obtain ⟨hk1, hk2⟩ := hk
    have hlen : k + 7 ≤ u.data.length := by
      have := lsw_length _ _ hk2
      simp only [List.length_drop, List.length_cons, List.length_nil] at this
      omega
    obtain ⟨k2, hfc⟩ := firstClose_complete u.data u.data.length 1 k hk2 hk1 (by omega)
    obtain ⟨hs1, hs2, hs3⟩ := firstClose_spec u.data u.data.length 1 k2 hfc
    have hle : k2 ≤ k := by
      by_contra hgt
      push_neg at hgt
      have := hs3 k hk1 hgt
      rw [hk2] at this
      exact absurd this (by simp)
    refine ⟨k2, ⟨hs1, hs2⟩, hle, fun j hj1 hj2 hcj => ?_, ?_⟩
    · have := hs3 j hj1 hj2
      rw [hcj.2] at this
      exact absurd this (by simp)
    · unfold stripProperties
      rw [if_pos hl, hfc]

/-- Witness for c7_header_strip at a concrete header-opened document. -/
theorem c7_header_strip_witness :
    (imagesOf envHeaderDoc settingsEmit = some imgsHeaderDoc
      ∧ settingsEmit.ignoreProperties = true ∧ settingsEmit.replaceOriginalDoc = true
      ∧ envHeaderDoc.editorText.isSome = true
      ∧ allOk (uploadOutcomes envHeaderDoc
          (resolveLoop envHeaderDoc imgsHeaderDoc).submitted) = true)
    ∧ (process envHeaderDoc settingsEmit ACTION_PUBLISH
        = ProcResult.done (finishUp envHeaderDoc settingsEmit ACTION_PUBLISH
            (envHeaderDoc.editorText.getD "")
            (uploadOutcomes envHeaderDoc
              (resolveLoop envHeaderDoc imgsHeaderDoc).submitted)
            (resolveLoop envHeaderDoc imgsHeaderDoc).notices)
      ∧ (finishUp envHeaderDoc settingsEmit ACTION_PUBLISH
          (envHeaderDoc.editorText.getD "")
          (uploadOutcomes envHeaderDoc
            (resolveLoop envHeaderDoc imgsHeaderDoc).submitted)
          (resolveLoop envHeaderDoc imgsHeaderDoc).notices).editorWrite
        = some ((finishUp envHeaderDoc settingsEmit ACTION_PUBLISH
            (envHeaderDoc.editorText.getD "")
            (uploadOutcomes envHeaderDoc
              (resolveLoop envHeaderDoc imgsHeaderDoc).submitted)
            (resolveLoop envHeaderDoc imgsHeaderDoc).notices).rewritten)
      ∧ (finishUp envHeaderDoc settingsEmit ACTION_PUBLISH
          (envHeaderDoc.editorText.getD "")
          (uploadOutcomes envHeaderDoc
            (resolveLoop envHeaderDoc imgsHeaderDoc).submitted)
          (resolveLoop envHeaderDoc imgsHeaderDoc).notices).output
        = stripProperties ((finishUp envHeaderDoc settingsEmit ACTION_PUBLISH
            (envHeaderDoc.editorText.getD "")
            (uploadOutcomes envHeaderDoc
              (resolveLoop envHeaderDoc imgsHeaderDoc).submitted)
            (resolveLoop envHeaderDoc imgsHeaderDoc).notices).rewritten)
      ∧ (finishUp envHeaderDoc settingsEmit ACTION_PUBLISH
          (envHeaderDoc.editorText.getD "")
          (uploadOutcomes envHeaderDoc
            (resolveLoop envHeaderDoc imgsHeaderDoc).submitted)
          (resolveLoop envHeaderDoc imgsHeaderDoc).notices).clipboard
        = some ((finishUp envHeaderDoc settingsEmit ACTION_PUBLISH
            (envHeaderDoc.editorText.getD "")
            (uploadOutcomes envHeaderDoc
              (resolveLoop envHeaderDoc imgsHeaderDoc).submitted)
            (resolveLoop envHeaderDoc imgsHeaderDoc).notices).output)
      ∧ (∀ u : String, stripProperties u ≠ u → lsw ['-', '-', '-'] u.data = true)
      ∧ (∀ (u : String) (k : Nat), lsw ['-', '-', '-'] u.data = true →
          closesAt u.data k →
          ∃ k0, closesAt u.data k0 ∧ k0 ≤ k
            ∧ (∀ j, 1 ≤ j → j < k0 → ¬ closesAt u.data j)
            ∧ stripProperties u = ⟨u.data.drop (3 + k0 + 4)⟩)) :=
  ⟨⟨by decide, rfl, rfl, by decide, by decide⟩,
    c7_header_strip envHeaderDoc settingsEmit imgsHeaderDoc
      (by decide) rfl rfl (by decide) (by decide)⟩

/-- C8: once a batch completes, the publish action places the final output
on the clipboard and signals success with a notice and no thrown error,
while every other action name throws the invalid-action error and places
nothing on the clipboard. -/
theorem c8_action_dispatch (env : Env) (settings : PublishSettings) (action : String)
    (images : List Image) (himg : imagesOf env settings = some images)
    (h : allOk (uploadOutcomes env
      (resolveLoop env images).submitted) = true) :
    (action = ACTION_PUBLISH →
      process env settings action
        = ProcResult.done (finishUp env settings action (env.editorText.getD "")
            (uploadOutcomes env (resolveLoop env images).submitted)
            (resolveLoop env images).notices)
      ∧ (finishUp env settings action (env.editorText.getD "")
          (uploadOutcomes env (resolveLoop env images).submitted)
          (resolveLoop env images).notices).threw = false
      ∧ (finishUp env settings action (env.editorText.getD "")
          (uploadOutcomes env (resolveLoop env images).submitted)
          (resolveLoop env images).notices).clipboard
        = some ((finishUp env settings action (env.editorText.getD "")
            (uploadOutcomes env (resolveLoop env images).submitted)
            (resolveLoop env images).notices).output)
      ∧ "Copied to clipboard" ∈ (finishUp env settings action (env.editorText.getD "")
          (uploadOutcomes env (resolveLoop env images).submitted)
          (resolveLoop env images).notices).notices)
    ∧ (action ≠ ACTION_PUBLISH →
      process env settings action
        = ProcResult.done (finishUp env settings action (env.editorText.getD "")
            (uploadOutcomes env (resolveLoop env images).submitted)
            (resolveLoop env images).notices)
      ∧ (finishUp env settings action (env.editorText.getD "")
          (uploadOutcomes env (resolveLoop env images).submitted)
          (resolveLoop env images).notices).threw = true
      ∧ (finishUp env settings action (env.editorText.getD "")
          (uploadOutcomes env (resolveLoop env images).submitted)
          (resolveLoop env images).notices).clipboard = none) := by
  constructor
  · intro ha
    exact ⟨process_done env settings action images himg h, by simp [finishUp, ha],
      by simp [finishUp, ha], by simp [finishUp, ha]⟩
  · intro ha
    exact ⟨process_done env settings action images himg h, by simp [finishUp, ha],
      by simp [finishUp, ha]⟩

/-- Witness for c8_action_dispatch at the unknown action name FOO. -/
theorem c8_action_dispatch_witness :
    (imagesOf envNoEditor settingsBase = some ([] : List Image)
      ∧ allOk (uploadOutcomes envNoEditor
        (resolveLoop envNoEditor ([] : List Image)).submitted) = true)
    ∧ (("FOO" = ACTION_PUBLISH →
        process envNoEditor settingsBase "FOO"
          = ProcResult.done (finishUp envNoEditor settingsBase "FOO"
              (envNoEditor.editorText.getD "")
              (uploadOutcomes envNoEditor
                (resolveLoop envNoEditor ([] : List Image)).submitted)
              (resolveLoop envNoEditor ([] : List Image)).notices)
        ∧ (finishUp envNoEditor settingsBase "FOO" (envNoEditor.editorText.getD "")
            (uploadOutcomes envNoEditor
              (resolveLoop envNoEditor ([] : List Image)).submitted)
            (resolveLoop envNoEditor ([] : List Image)).notices).threw = false
        ∧ (finishUp envNoEditor settingsBase "FOO" (envNoEditor.editorText.getD "")
            (uploadOutcomes envNoEditor
              (resolveLoop envNoEditor ([] : List Image)).submitted)
            (resolveLoop envNoEditor ([] : List Image)).notices).clipboard
          = some ((finishUp envNoEditor settingsBase "FOO" (envNoEditor.editorText.getD "")
              (uploadOutcomes envNoEditor
                (resolveLoop envNoEditor ([] : List Image)).submitted)
              (resolveLoop envNoEditor ([] : List Image)).notices).output)
        ∧ "Copied to clipboard" ∈ (finishUp envNoEditor settingsBase "FOO"
            (envNoEditor.editorText.getD "")
            (uploadOutcomes envNoEditor
              (resolveLoop envNoEditor ([] : List Image)).submitted)
            (resolveLoop envNoEditor ([] : List Image)).notices).notices)
      ∧ ("FOO" ≠ ACTION_PUBLISH →
        process envNoEditor settingsBase "FOO"
          = ProcResult.done (finishUp envNoEditor settingsBase "FOO"
              (envNoEditor.editorText.getD "")
              (uploadOutcomes envNoEditor
                (resolveLoop envNoEditor ([] : List Image)).submitted)
              (resolveLoop envNoEditor ([] : List Image)).notices)
        ∧ (finishUp envNoEditor settingsBase "FOO" (envNoEditor.editorText.getD "")
            (uploadOutcomes envNoEditor
              (resolveLoop envNoEditor ([] : List Image)).submitted)
            (resolveLoop envNoEditor ([] : List Image)).notices).threw = true
        ∧ (finishUp envNoEditor settingsBase "FOO" (envNoEditor.editorText.getD "")
            (uploadOutcomes envNoEditor
              (resolveLoop envNoEditor ([] : List Image)).submitted)
            (resolveLoop envNoEditor ([] : List Image)).notices).clipboard
          = none))
    ∧ (("PUBLISH" = ACTION_PUBLISH →
        process envNoEditor settingsBase "PUBLISH"
          = ProcResult.done (finishUp envNoEditor settingsBase "PUBLISH"
              (envNoEditor.editorText.getD "")
              (uploadOutcomes envNoEditor
                (resolveLoop envNoEditor ([] : List Image)).submitted)
              (resolveLoop envNoEditor ([] : List Image)).notices)
        ∧ (finishUp envNoEditor settingsBase "PUBLISH" (envNoEditor.editorText.getD "")
            (uploadOutcomes envNoEditor
              (resolveLoop envNoEditor ([] : List Image)).submitted)
            (resolveLoop envNoEditor ([] : List Image)).notices).threw = false
        ∧ (finishUp envNoEditor settingsBase "PUBLISH" (envNoEditor.editorText.getD "")
            (uploadOutcomes envNoEditor
              (resolveLoop envNoEditor ([] : List Image)).submitted)
            (resolveLoop envNoEditor ([] : List Image)).notices).clipboard
          = some ((finishUp envNoEditor settingsBase "PUBLISH" (envNoEditor.editorText.getD "")
              (uploadOutcomes envNoEditor
                (resolveLoop envNoEditor ([] : List Image)).submitted)
              (resolveLoop envNoEditor ([] : List Image)).notices).output)
        ∧ "Copied to clipboard" ∈ (finishUp envNoEditor settingsBase "PUBLISH"
            (envNoEditor.editorText.getD "")
            (uploadOutcomes envNoEditor
              (resolveLoop envNoEditor ([] : List Image)).submitted)
            (resolveLoop envNoEditor ([] : List Image)).notices).notices)
      ∧ ("PUBLISH" ≠ ACTION_PUBLISH →
        process envNoEditor settingsBase "PUBLISH"
          = ProcResult.done (finishUp envNoEditor settingsBase "PUBLISH"
              (envNoEditor.editorText.getD "")
              (uploadOutcomes envNoEditor
                (resolveLoop envNoEditor ([] : List Image)).submitted)
              (resolveLoop envNoEditor ([] : List Image)).notices)
        ∧ (finishUp envNoEditor settingsBase "PUBLISH" (envNoEditor.editorText.getD "")
            (uploadOutcomes envNoEditor
              (resolveLoop envNoEditor ([] : List Image)).submitted)
            (resolveLoop envNoEditor ([] : List Image)).notices).threw = true
        ∧ (finishUp envNoEditor settingsBase "PUBLISH" (envNoEditor.editorText.getD "")
            (uploadOutcomes envNoEditor
              (resolveLoop envNoEditor ([] : List Image)).submitted)
            (resolveLoop envNoEditor ([] : List Image)).notices).clipboard
          = none)) :=
  ⟨⟨by decide, by decide⟩,
    c8_action_dispatch envNoEditor settingsBase "FOO" ([] : List Image)
      (by decide) (by decide),
    c8_action_dispatch envNoEditor settingsBase "PUBLISH" ([] : List Image)
      (by decide) (by decide)⟩

/-- The heads agree when a prefix test of two cons cells succeeds. -/
theorem lsw_head (p c : Char) (ps cs : List Char)
    (h : lsw (p :: ps) (c :: cs) = true) : p = c := by
  rw [lsw, Bool.and_eq_true] at h
  exact of_decide_eq_true h.1

/-- A prefix test of two cons cells with distinct heads fails. -/
theorem lsw_head_ne (p c : Char) (ps cs : List Char) (h : p ≠ c) :
    lsw (p :: ps) (c :: cs) = false := by
  rw [lsw]
  simp [h]

/-- A prefix of a list is a prefix of any right extension of it. -/
theorem lsw_append_left :
    ∀ (p b c : List Char), lsw p b = true → lsw p (b ++ c) = true := by
  intro p
  induction p with
  | nil => intro b c _; rfl
  | cons q qs ih =>
    intro b c h
    cases b with
    | nil => simp [lsw] at h
    | cons x xs =>
      rw [lsw, Bool.and_eq_true] at h
      rw [List.cons_append, lsw, Bool.and_eq_true]
      exact ⟨h.1, ih xs c h.2⟩

/-- The character data of a string concatenation. -/
theorem strData_append (a b : String) : (a ++ b).data = a.data ++ b.data := by
  cases a
  cases b
  rfl

/-- A suffix of the right part of a concatenation is a suffix of the
concatenation. -/
theorem endsWith_append_right (a b p : String)
    (h : endsWithStr b p = true) : endsWithStr (a ++ b) p = true := by
  unfold endsWithStr at h ⊢
  rw [strData_append, List.reverse_append]
  exact lsw_append_left _ _ _ h

/-- A string ending in the excalidraw extension does not end in png. -/
theorem ends_excalidraw_not_png (s : String)
    (h : endsWithStr s ".excalidraw" = true) : endsWithStr s ".png" = false := by
  unfold endsWithStr at h ⊢
  have e1 : (".excalidraw" : String).data.reverse
      = ['w', 'a', 'r', 'd', 'i', 'l', 'a', 'c', 'x', 'e', '.'] := rfl
  have e2 : (".png" : String).data.reverse = ['g', 'n', 'p', '.'] := rfl
  rw [e1] at h
  rw [e2]
  cases hs : s.data.reverse with
  | nil => rw [hs] at h; simp [lsw] at h
  | cons c cs =>
    rw [hs] at h
    have hc : ('w' : Char) = c := lsw_head _ _ _ _ h
    exact lsw_head_ne _ _ _ _ (by rw [← hc]; decide)

/-- C6: every reference extracted from a bracketed-wiki match whose name
ends in the excalidraw extension gets the candidate path built by appending
a literal png suffix to the full original name, while any other wiki match
keeps its name unchanged in the candidate path. -/
theorem c6_excalidraw_path (dec : String → Option String) (loc value : String) (img : Image)
    (hmem : img ∈ (matchAllW value.data).map (mkWikiImage loc)) :
    (∀ imgs, getImageLists dec loc value = some imgs → img ∈ imgs)
    ∧ (endsWithStr img.name ".excalidraw" = true →
        img.path = loc ++ "/" ++ (img.name ++ ".png"))
    ∧ (endsWithStr img.name ".excalidraw" = false →
        img.path = loc ++ "/" ++ img.name) := by
  obtain ⟨m, hm, rfl⟩ := List.mem_map.mp hmem
  refine ⟨?_, ?_, ?_⟩
  · intro imgs himgs
    unfold getImageLists at himgs
    cases hmd : mdLoop dec (matchAllM value.data) with
    | none => rw [hmd] at himgs; exact absurd himgs (by simp)
    | some mdImgs =>
      rw [hmd] at himgs
      have hi : (matchAllW value.data).map (mkWikiImage loc) ++ mdImgs = imgs :=
        Option.some_injective _ himgs
      rw [← hi]
      exact List.mem_append_left _ (List.mem_map_of_mem _ hm)
  · intro hx
    simp only [mkWikiImage] at hx ⊢
    rw [if_pos hx]
  · intro hx
    simp only [mkWikiImage] at hx ⊢
    rw [if_neg (by simp [hx])]

/-- Witness for c6_excalidraw_path at a document with one excalidraw and
one png wiki embed. -/
theorem c6_excalidraw_path_witness :
    ((⟨"d.excalidraw", "assets/d.excalidraw.png", "", "", "![[d.excalidraw]]"⟩ : Image)
        ∈ (matchAllW ("![[d.excalidraw]] ![[c.png]]" : String).data).map (mkWikiImage "assets"))
    ∧ ((∀ imgs, getImageLists (fun s => some s) "assets" "![[d.excalidraw]] ![[c.png]]"
          = some imgs →
        (⟨"d.excalidraw", "assets/d.excalidraw.png", "", "", "![[d.excalidraw]]"⟩ : Image) ∈ imgs)
      ∧ (endsWithStr (Image.name ⟨"d.excalidraw", "assets/d.excalidraw.png", "", "", "![[d.excalidraw]]"⟩) ".excalidraw" = true →
          Image.path ⟨"d.excalidraw", "assets/d.excalidraw.png", "", "", "![[d.excalidraw]]"⟩
            = "assets" ++ "/" ++ (Image.name ⟨"d.excalidraw", "assets/d.excalidraw.png", "", "", "![[d.excalidraw]]"⟩ ++ ".png"))
      ∧ (endsWithStr (Image.name ⟨"d.excalidraw", "assets/d.excalidraw.png", "", "", "![[d.excalidraw]]"⟩) ".excalidraw" = false →
          Image.path ⟨"d.excalidraw", "assets/d.excalidraw.png", "", "", "![[d.excalidraw]]"⟩
            = "assets" ++ "/" ++ Image.name ⟨"d.excalidraw", "assets/d.excalidraw.png", "", "", "![[d.excalidraw]]"⟩))
    ∧ ((⟨"c.png", "assets/c.png", "", "", "![[c.png]]"⟩ : Image)
        ∈ (matchAllW ("![[d.excalidraw]] ![[c.png]]" : String).data).map (mkWikiImage "assets"))
    ∧ ((∀ imgs, getImageLists (fun s => some s) "assets" "![[d.excalidraw]] ![[c.png]]"
          = some imgs →
        (⟨"c.png", "assets/c.png", "", "", "![[c.png]]"⟩ : Image) ∈ imgs)
      ∧ (endsWithStr (Image.name ⟨"c.png", "assets/c.png", "", "", "![[c.png]]"⟩) ".excalidraw" = true →
          Image.path ⟨"c.png", "assets/c.png", "", "", "![[c.png]]"⟩
            = "assets" ++ "/" ++ (Image.name ⟨"c.png", "assets/c.png", "", "", "![[c.png]]"⟩ ++ ".png"))
      ∧ (endsWithStr (Image.name ⟨"c.png", "assets/c.png", "", "", "![[c.png]]"⟩) ".excalidraw" = false →
          Image.path ⟨"c.png", "assets/c.png", "", "", "![[c.png]]"⟩
            = "assets" ++ "/" ++ Image.name ⟨"c.png", "assets/c.png", "", "", "![[c.png]]"⟩)) :=
  ⟨by decide,
    c6_excalidraw_path (fun s => some s) "assets" "![[d.excalidraw]] ![[c.png]]" _ (by decide),
    by decide,
    c6_excalidraw_path (fun s => some s) "assets" "![[d.excalidraw]] ![[c.png]]" _ (by decide)⟩

/-- C9: for a wiki reference whose name ends in the excalidraw extension,
the full path used for the existence check and for the binary read keeps the
original name ending in the excalidraw extension: only the directory comes
from resolving the png-suffixed candidate path, and the file name component
carries no appended png suffix. -/
theorem c9_excalidraw_fullpath (env : Env) (loc value : String) (img : Image)
    (rest : List Image)
    (hmem : img ∈ (matchAllW value.data).map (mkWikiImage loc))
    (hx : endsWithStr img.name ".excalidraw" = true) :
    img.path = loc ++ "/" ++ (img.name ++ ".png")
    ∧ fullPathOf env img
      = dirnameStr (env.availablePath (env.normalizePath (loc ++ "/" ++ (img.name ++ ".png"))))
        ++ "/" ++ img.name
    ∧ (resolveLoop env (img :: rest)).checks.head?
      = some (env.normalizePath (fullPathOf env img))
    ∧ (env.fileNotNull (env.normalizePath (fullPathOf env img)) = true →
        (resolveLoop env (img :: rest)).reads.head? = some (fullPathOf env img))
    ∧ endsWithStr (fullPathOf env img) ".excalidraw" = true
    ∧ endsWithStr (fullPathOf env img) ".png" = false := by
  have hpath : img.path = loc ++ "/" ++ (img.name ++ ".png") := by
    obtain ⟨m, hm, rfl⟩ := List.mem_map.mp hmem
    simp only [mkWikiImage] at hx ⊢
    rw [if_pos hx]
  have hfp : fullPathOf env img
      = dirnameStr (env.availablePath (env.normalizePath (loc ++ "/" ++ (img.name ++ ".png"))))
        ++ "/" ++ img.name := by
    rw [fullPathOf, hpath]
  have hends : endsWithStr (fullPathOf env img) ".excalidraw" = true := by
    rw [hfp]
    exact endsWith_append_right _ _ _ hx
  refine ⟨hpath, hfp, ?_, ?_, hends, ends_excalidraw_not_png _ hends⟩
  · rw [resolveLoop]
    by_cases hc : env.fileNotNull (env.normalizePath (fullPathOf env img)) = true
    · rw [if_pos hc]
      rfl
    · rw [if_neg hc]
      rfl
  · intro hc
    rw [resolveLoop, if_pos hc]
    rfl

/-- Witness for c9_excalidraw_fullpath at a concrete excalidraw embed. -/
theorem c9_excalidraw_fullpath_witness :
    ((⟨"d.excalidraw", "assets/d.excalidraw.png", "", "", "![[d.excalidraw]]"⟩ : Image)
        ∈ (matchAllW ("![[d.excalidraw]]" : String).data).map (mkWikiImage "assets")
      ∧ endsWithStr (Image.name ⟨"d.excalidraw", "assets/d.excalidraw.png", "", "", "![[d.excalidraw]]"⟩) ".excalidraw" = true)
    ∧ (Image.path ⟨"d.excalidraw", "assets/d.excalidraw.png", "", "", "![[d.excalidraw]]"⟩
        = "assets" ++ "/" ++ (Image.name ⟨"d.excalidraw", "assets/d.excalidraw.png", "", "", "![[d.excalidraw]]"⟩ ++ ".png")
      ∧ fullPathOf envExcalidraw ⟨"d.excalidraw", "assets/d.excalidraw.png", "", "", "![[d.excalidraw]]"⟩
        = dirnameStr (envExcalidraw.availablePath (envExcalidraw.normalizePath
            ("assets" ++ "/" ++ (Image.name ⟨"d.excalidraw", "assets/d.excalidraw.png", "", "", "![[d.excalidraw]]"⟩ ++ ".png"))))
          ++ "/" ++ Image.name ⟨"d.excalidraw", "assets/d.excalidraw.png", "", "", "![[d.excalidraw]]"⟩
      ∧ (resolveLoop envExcalidraw
          [⟨"d.excalidraw", "assets/d.excalidraw.png", "", "", "![[d.excalidraw]]"⟩]).checks.head?
        = some (envExcalidraw.normalizePath (fullPathOf envExcalidraw
            ⟨"d.excalidraw", "assets/d.excalidraw.png", "", "", "![[d.excalidraw]]"⟩))
      ∧ (envExcalidraw.fileNotNull (envExcalidraw.normalizePath (fullPathOf envExcalidraw
            ⟨"d.excalidraw", "assets/d.excalidraw.png", "", "", "![[d.excalidraw]]"⟩)) = true →
          (resolveLoop envExcalidraw
            [⟨"d.excalidraw", "assets/d.excalidraw.png", "", "", "![[d.excalidraw]]"⟩]).reads.head?
            = some (fullPathOf envExcalidraw
                ⟨"d.excalidraw", "assets/d.excalidraw.png", "", "", "![[d.excalidraw]]"⟩))
      ∧ endsWithStr (fullPathOf envExcalidraw
          ⟨"d.excalidraw", "assets/d.excalidraw.png", "", "", "![[d.excalidraw]]"⟩) ".excalidraw" = true
      ∧ endsWithStr (fullPathOf envExcalidraw
          ⟨"d.excalidraw", "assets/d.excalidraw.png", "", "", "![[d.excalidraw]]"⟩) ".png" = false) :=
  ⟨⟨by decide, by decide⟩,
    c9_excalidraw_fullpath envExcalidraw "assets" "![[d.excalidraw]]" _ [] (by decide) (by decide)⟩

/-- Taking past the left part of an append. -/
theorem take_append_len :
    ∀ (a b : List Char) (k : Nat), (a ++ b).take (a.length + k) = a ++ b.take k := by
  intro a
  induction a with
  | nil => intro b k; simp
  | cons c cs ih =>
    intro b k
    have := ih b k
    simp only [List.cons_append, List.length_cons, Nat.succ_add, List.take_succ_cons]
    rw [this]

/-- A scan finding nothing at its resume position produces no matches for
any fuel. -/
theorem matchAllAux_nil (f : Nat → Option MatchInfo) (len pos : Nat)
    (h : findFrom f len pos = none) :
    ∀ fuel, matchAllAux f len fuel pos = [] := by
  intro fuel
  cases fuel with
  | zero => rfl
  | succ fuel => rw [matchAllAux, h]

/-- One step of the scan when a match is found at the resume position. -/
theorem matchAllAux_cons (f : Nat → Option MatchInfo) (len pos fuel : Nat)
    (m : MatchInfo) (h : findFrom f len pos = some m) :
    matchAllAux f len (fuel + 1) pos
      = m :: matchAllAux f len fuel (if m.start < m.stop then m.stop else m.start + 1) := by
  rw [matchAllAux, h]

/-- No allowed extension contains a closing bracket. -/
theorem extNoBracket : ∀ e ∈ extList, (']' : Char) ∉ e := by decide

/-- When no alternative matches at the dot position, the ordered extension
try fails. -/
theorem extSearch_none (r : List Char) (j : Nat) :
    ∀ (es : List (List Char)), (∀ e ∈ es, lsw e (r.drop (j + 1)) = false) →
      extSearch r j es = none := by
  intro es
  induction es with
  | nil => intro _; rfl
  | cons e es ih =>
    intro h
    rw [extSearch, if_neg (by simp [h e (by simp)])]
    exact ih (fun e2 he2 => h e2 (by simp [he2]))

/-- The ordered extension try commits to the first alternative that matches
and whose tail also matches. -/
theorem extSearch_hit (r : List Char) (n : Nat) (extC : List Char) (t : Nat)
    (hlsw : lsw extC (r.drop (n + 1)) = true)
    (htail : wikiTail (r.drop (n + 1 + extC.length)) = some t) :
    ∀ (pre post : List (List Char)), (∀ e ∈ pre, lsw e (r.drop (n + 1)) = false) →
      extSearch r n (pre ++ extC :: post)
        = some (n + 1 + extC.length, n + 1 + extC.length + t) := by
  intro pre
  induction pre with
  | nil =>
    intro post _
    rw [List.nil_append, extSearch, if_pos hlsw, htail]
  | cons e pre ih =>
    intro post hp
    rw [List.cons_append, extSearch, if_neg (by simp [hp e (by simp)])]
    exact ih post (fun e2 he2 => hp e2 (by simp [he2]))

/-- The trailing group of WIKI_REGEX consumes a whole dot-matchable tail up
to the final closing brackets, unless the tail itself opens with closing
brackets. -/
theorem wikiTail_append (t : List Char)
    (hd : ∀ c ∈ t, jsDot c = true)
    (h2 : t = [] ∨ lsw [']', ']'] (t ++ [']', ']']) = false) :
    wikiTail (t ++ [']', ']']) = some (t.length + 2) := by
  rcases h2 with rfl | h2
  · rfl
  · rw [wikiTail, if_neg (by simp [h2])]
    have hrun : lineRun (t ++ [']', ']']) = t.length + 2 := by
      rw [lineRun_append_all t [']', ']'] hd]
      rfl
    rw [hrun]
    apply descSearch_topmost _ _ t.length _ (by omega)
    · intro j hj1 hj2
      have hj : j = t.length + 1 ∨ j = t.length + 2 := by omega
      rcases hj with rfl | rfl
      · rw [if_neg]
        rw [show t.length + 1 = t.length + 1 from rfl, drop_append_len t [']', ']'] 1]
        simp [lsw]
      · rw [if_neg]
        rw [drop_append_len t [']', ']'] 2]
        simp [lsw]
    · rw [if_pos]
      rw [show t.length = t.length + 0 from rfl, drop_append_len t [']', ']'] 0]
      rfl

/-- Dropping one past a middle element of an append. -/
theorem drop_cons_one (a b : List Char) (c : Char) :
    (a ++ c :: b).drop (a.length + 1) = b := by
  rw [drop_append_len a (c :: b) 1]
  rfl

/-- The ordered extension try at the designated split consumes the given
extension and the whole trailing suffix: alternatives before it fail on
their first mismatching character. -/
theorem extSearch_split (nameC extC suffC : List Char) (hext : extC ∈ extList) :
    ∀ r : List Char,
      r.drop (nameC.length + 1) = extC ++ (suffC ++ [']', ']']) →
      wikiTail (r.drop (nameC.length + 1 + extC.length)) = some (suffC.length + 2) →
      extSearch r nameC.length extList
        = some (nameC.length + 1 + extC.length,
            nameC.length + 1 + extC.length + (suffC.length + 2)) := by
  intro r e1 htail
  have hlswC : lsw extC (r.drop (nameC.length + 1)) = true := by
    rw [e1]
    exact lsw_append_self _ _
  have hext2 := hext
  simp only [extList, List.mem_cons, List.not_mem_nil, or_false] at hext2
  rcases hext2 with rfl | rfl | rfl | rfl | rfl | rfl | rfl
  · show extSearch r nameC.length
        ([] ++ "png".data
          :: ["jpg".data, "jpeg".data, "gif".data, "svg".data, "webp".data,
              "excalidraw".data]) = _
    exact extSearch_hit r nameC.length _ _ hlswC htail _ _ (by simp)
  · show extSearch r nameC.length
        (["png".data] ++ "jpg".data
          :: ["jpeg".data, "gif".data, "svg".data, "webp".data,
              "excalidraw".data]) = _
    refine extSearch_hit r nameC.length _ _ hlswC htail _ _ ?_
    intro e he
    simp only [List.mem_singleton] at he
    subst he
    rw [e1]
    rfl
  · show extSearch r nameC.length
        (["png".data, "jpg".data] ++ "jpeg".data
          :: ["gif".data, "svg".data, "webp".data, "excalidraw".data]) = _
    refine extSearch_hit r nameC.length _ _ hlswC htail _ _ ?_
    intro e he
    simp only [List.mem_cons, List.mem_singleton, List.not_mem_nil, or_false] at he
    rcases he with rfl | rfl <;> (rw [e1]; rfl)
  · show extSearch r nameC.length
        (["png".data, "jpg".data, "jpeg".data] ++ "gif".data
          :: ["svg".data, "webp".data, "excalidraw".data]) = _
    refine extSearch_hit r nameC.length _ _ hlswC htail _ _ ?_
    intro e he
    simp only [List.mem_cons, List.mem_singleton, List.not_mem_nil, or_false] at he
    rcases he with rfl | rfl | rfl <;> (rw [e1]; rfl)
  · show extSearch r nameC.length
        (["png".data, "jpg".data, "jpeg".data, "gif".data] ++ "svg".data
          :: ["webp".data, "excalidraw".data]) = _
    refine extSearch_hit r nameC.length _ _ hlswC htail _ _ ?_
    intro e he
    simp only [List.mem_cons, List.mem_singleton, List.not_mem_nil, or_false] at he
    rcases he with rfl | rfl | rfl | rfl <;> (rw [e1]; rfl)
  · show extSearch r nameC.length
        (["png".data, "jpg".data, "jpeg".data, "gif".data, "svg".data]
          ++ "webp".data :: ["excalidraw".data]) = _
    refine extSearch_hit r nameC.length _ _ hlswC htail _ _ ?_
    intro e he
    simp only [List.mem_cons, List.mem_singleton, List.not_mem_nil, or_false] at he
    rcases he with rfl | rfl | rfl | rfl | rfl <;> (rw [e1]; rfl)
  · show extSearch r nameC.length
        (["png".data, "jpg".data, "jpeg".data, "gif".data, "svg".data,
          "webp".data] ++ "excalidraw".data :: []) = _
    refine extSearch_hit r nameC.length _ _ hlswC htail _ _ ?_
    intro e he
    simp only [List.mem_cons, List.mem_singleton, List.not_mem_nil, or_false] at he
    rcases he with rfl | rfl | rfl | rfl | rfl | rfl <;> (rw [e1]; rfl)

/-- The lazy name search of WIKI_REGEX stops at the designated split when no
earlier dot-extension split exists: the captured name runs through the given
extension and the whole bracketed body is consumed. -/
theorem wikiBody_split (nameC extC suffC : List Char)
    (hext : extC ∈ extList)
    (hdot : ∀ c ∈ nameC ++ '.' :: (extC ++ suffC), jsDot c = true)
    (hsuf : suffC = [] ∨ lsw [']', ']'] (suffC ++ [']', ']']) = false)
    (hmin : ∀ j, j < nameC.length → ∀ e ∈ extList,
      lsw ('.' :: e) ((nameC ++ '.' :: (extC ++ suffC)).drop j) = false) :
    wikiBody ((nameC ++ '.' :: (extC ++ suffC)) ++ [']', ']'])
      = some (nameC.length + 1 + extC.length,
          nameC.length + 1 + extC.length + (suffC.length + 2)) := by
  have hr : (nameC ++ '.' :: (extC ++ suffC)) ++ [']', ']']
      = nameC ++ '.' :: ((extC ++ suffC) ++ [']', ']']) := by
    simp [List.append_assoc]
  have hinlen : (nameC ++ '.' :: (extC ++ suffC)).length
      = nameC.length + 1 + (extC.length + suffC.length) := by
    simp [List.length_append]
    omega
  have e0 : ((nameC ++ '.' :: (extC ++ suffC)) ++ [']', ']']).drop nameC.length
      = '.' :: ((extC ++ suffC) ++ [']', ']']) := by
    rw [hr, show nameC.length = nameC.length + 0 from rfl, drop_append_len]
    rfl
  have e1 : ((nameC ++ '.' :: (extC ++ suffC)) ++ [']', ']']).drop (nameC.length + 1)
      = extC ++ (suffC ++ [']', ']']) := by
    rw [hr, drop_cons_one, List.append_assoc]
  have e2 : ((nameC ++ '.' :: (extC ++ suffC)) ++ [']', ']']).drop
        (nameC.length + 1 + extC.length)
      = suffC ++ [']', ']'] := by
    rw [hr, show nameC.length + 1 + extC.length = nameC.length + (1 + extC.length) from
      by omega, drop_append_len,
      show 1 + extC.length = extC.length + 1 from by omega, List.drop_succ_cons,
      List.append_assoc, show extC.length = extC.length + 0 from rfl, drop_append_len]
    rfl
  have htail : wikiTail (((nameC ++ '.' :: (extC ++ suffC)) ++ [']', ']']).drop
        (nameC.length + 1 + extC.length)) = some (suffC.length + 2) := by
    rw [e2]
    exact wikiTail_append suffC (fun c hc => hdot c (by simp [hc])) hsuf
  have hrun : lineRun ((nameC ++ '.' :: (extC ++ suffC)) ++ [']', ']'])
      = (nameC ++ '.' :: (extC ++ suffC)).length + 2 := by
    rw [lineRun_append_all _ _ hdot]
    rfl
  unfold wikiBody
  rw [hrun]
  apply ascSearch_first _ _ _ nameC.length _ (Nat.zero_le _)
    (by rw [hinlen]; omega)
  · intro j hj0 hjlt
    by_cases hdj : lsw ['.']
        (((nameC ++ '.' :: (extC ++ suffC)) ++ [']', ']']).drop j) = true
    · rw [if_pos hdj]
      apply extSearch_none
      intro e he
      by_contra hcontra
      rw [Bool.not_eq_false] at hcontra
      have hjlen : j < (nameC ++ '.' :: (extC ++ suffC)).length := by
        rw [hinlen]
        omega
      have hdrj : ((nameC ++ '.' :: (extC ++ suffC)) ++ [']', ']']).drop j
          = (nameC ++ '.' :: (extC ++ suffC)).drop j ++ [']', ']'] :=
        drop_append_le _ _ j (Nat.le_of_lt hjlen)
      have hdrj1 : ((nameC ++ '.' :: (extC ++ suffC)) ++ [']', ']']).drop (j + 1)
          = (nameC ++ '.' :: (extC ++ suffC)).drop (j + 1) ++ [']', ']'] :=
        drop_append_le _ _ (j + 1) (by omega)
      cases hdj2 : (nameC ++ '.' :: (extC ++ suffC)).drop j with
      | nil =>
        have := congrArg List.length hdj2
        rw [List.length_drop] at this
        simp at this
        omega
      | cons c cs =>
        have hc : ('.' : Char) = c := by
          rw [hdrj, hdj2] at hdj
          exact lsw_head _ _ _ _ hdj
        have hcs : (nameC ++ '.' :: (extC ++ suffC)).drop (j + 1) = cs := by
          have hdd := List.drop_drop 1 j (nameC ++ '.' :: (extC ++ suffC))
          rw [hdj2] at hdd
          rw [← hdd]
          rfl
        have hcontra2 : lsw e ((nameC ++ '.' :: (extC ++ suffC)).drop (j + 1)) = true := by
          apply lsw_of_append_brk e _ (extNoBracket e he)
          rw [← hdrj1]
          exact hcontra
        have hfin : lsw ('.' :: e) ((nameC ++ '.' :: (extC ++ suffC)).drop j) = true := by
          rw [hdj2, ← hc]
          show (decide (('.' : Char) = '.') && lsw e cs) = true
          rw [← hcs]
          simp [hcontra2]
        have := hmin j hjlt e he
        rw [hfin] at this
        exact absurd this (by simp)
    · rw [if_neg hdj]
  · rw [if_pos (by rw [e0]; rfl)]
    exact extSearch_split nameC extC suffC hext _ e1 htail

/-- The whole WIKI_REGEX match on a bracketed span with a designated split
and a dot-matchable interior. -/
theorem wikiMatchAt_split (nameC extC suffC : List Char)
    (hext : extC ∈ extList)
    (hdot : ∀ c ∈ nameC ++ '.' :: (extC ++ suffC), jsDot c = true)
    (hsuf : suffC = [] ∨ lsw [']', ']'] (suffC ++ [']', ']']) = false)
    (hmin : ∀ j, j < nameC.length → ∀ e ∈ extList,
      lsw ('.' :: e) ((nameC ++ '.' :: (extC ++ suffC)).drop j) = false) :
    wikiMatchAt ('!' :: '[' :: '[' :: ((nameC ++ '.' :: (extC ++ suffC)) ++ [']', ']']))
      = some (nameC.length + 1 + extC.length,
          3 + (nameC.length + 1 + extC.length + (suffC.length + 2))) := by
  unfold wikiMatchAt
  rw [if_pos (by rfl)]
  rw [show ('!' :: '[' :: '[' :: ((nameC ++ '.' :: (extC ++ suffC)) ++ [']', ']'])).drop 3
    = (nameC ++ '.' :: (extC ++ suffC)) ++ [']', ']'] from rfl]
  rw [wikiBody_split nameC extC suffC hext hdot hsuf hmin]

/-- The wiki scan of a document that is exactly one bracketed span with a
designated split yields that single match: its raw span is the whole
document, suffix included, and its capture runs through the extension. -/
theorem matchAllW_split (nameC extC suffC : List Char)
    (hext : extC ∈ extList)
    (hdot : ∀ c ∈ nameC ++ '.' :: (extC ++ suffC), jsDot c = true)
    (hsuf : suffC = [] ∨ lsw [']', ']'] (suffC ++ [']', ']']) = false)
    (hmin : ∀ j, j < nameC.length → ∀ e ∈ extList,
      lsw ('.' :: e) ((nameC ++ '.' :: (extC ++ suffC)).drop j) = false) :
    matchAllW ('!' :: '[' :: '[' :: ((nameC ++ '.' :: (extC ++ suffC)) ++ [']', ']']))
      = [⟨0, 3 + (nameC.length + 1 + extC.length + (suffC.length + 2)),
          ⟨'!' :: '[' :: '[' :: ((nameC ++ '.' :: (extC ++ suffC)) ++ [']', ']'])⟩,
          ⟨nameC ++ '.' :: extC⟩, ""⟩] := by
  have hTlen : 3 + (nameC.length + 1 + extC.length + (suffC.length + 2))
      = ('!' :: '[' :: '[' :: ((nameC ++ '.' :: (extC ++ suffC)) ++ [']', ']'])).length := by
    simp [List.length_append]
    omega
  have rawEq : ('!' :: '[' :: '[' :: ((nameC ++ '.' :: (extC ++ suffC)) ++ [']', ']'])).take
        (3 + (nameC.length + 1 + extC.length + (suffC.length + 2)))
      = '!' :: '[' :: '[' :: ((nameC ++ '.' :: (extC ++ suffC)) ++ [']', ']']) := by
    rw [hTlen, List.take_length]
  have capEq : (('!' :: '[' :: '[' :: ((nameC ++ '.' :: (extC ++ suffC)) ++ [']', ']'])).drop 3).take
        (nameC.length + 1 + extC.length)
      = nameC ++ '.' :: extC := by
    rw [show ('!' :: '[' :: '[' :: ((nameC ++ '.' :: (extC ++ suffC)) ++ [']', ']'])).drop 3
      = nameC ++ '.' :: ((extC ++ suffC) ++ [']', ']']) from by simp [List.append_assoc]]
    rw [show nameC.length + 1 + extC.length = nameC.length + (1 + extC.length) from by omega]
    rw [take_append_len]
    rw [show 1 + extC.length = extC.length + 1 from by omega, List.take_succ_cons]
    rw [List.append_assoc, show extC.length = extC.length + 0 from rfl, take_append_len]
    simp
  have hw0 : wikiAt ('!' :: '[' :: '[' :: ((nameC ++ '.' :: (extC ++ suffC)) ++ [']', ']'])) 0
      = some ⟨0, 3 + (nameC.length + 1 + extC.length + (suffC.length + 2)),
          ⟨'!' :: '[' :: '[' :: ((nameC ++ '.' :: (extC ++ suffC)) ++ [']', ']'])⟩,
          ⟨nameC ++ '.' :: extC⟩, ""⟩ := by
    unfold wikiAt
    rw [show ('!' :: '[' :: '[' :: ((nameC ++ '.' :: (extC ++ suffC)) ++ [']', ']'])).drop 0
      = '!' :: '[' :: '[' :: ((nameC ++ '.' :: (extC ++ suffC)) ++ [']', ']']) from rfl]
    rw [wikiMatchAt_split nameC extC suffC hext hdot hsuf hmin]
    simp only [Nat.zero_add, List.drop_zero]
    rw [congrArg String.mk rawEq, congrArg String.mk capEq]
  have hflen : wikiAt ('!' :: '[' :: '[' :: ((nameC ++ '.' :: (extC ++ suffC)) ++ [']', ']']))
      ('!' :: '[' :: '[' :: ((nameC ++ '.' :: (extC ++ suffC)) ++ [']', ']'])).length = none := by
    unfold wikiAt
    rw [List.drop_length]
    rfl
  have hnext : findFrom
      (wikiAt ('!' :: '[' :: '[' :: ((nameC ++ '.' :: (extC ++ suffC)) ++ [']', ']'])))
      ('!' :: '[' :: '[' :: ((nameC ++ '.' :: (extC ++ suffC)) ++ [']', ']'])).length
      ('!' :: '[' :: '[' :: ((nameC ++ '.' :: (extC ++ suffC)) ++ [']', ']'])).length = none := by
    unfold findFrom
    rw [show ('!' :: '[' :: '[' :: ((nameC ++ '.' :: (extC ++ suffC)) ++ [']', ']'])).length + 1
        - ('!' :: '[' :: '[' :: ((nameC ++ '.' :: (extC ++ suffC)) ++ [']', ']'])).length
      = 1 from by omega]
    rw [ascSearch, hflen]
    rfl
  have hfind : findFrom
      (wikiAt ('!' :: '[' :: '[' :: ((nameC ++ '.' :: (extC ++ suffC)) ++ [']', ']'])))
      ('!' :: '[' :: '[' :: ((nameC ++ '.' :: (extC ++ suffC)) ++ [']', ']'])).length 0
      = some ⟨0, 3 + (nameC.length + 1 + extC.length + (suffC.length + 2)),
          ⟨'!' :: '[' :: '[' :: ((nameC ++ '.' :: (extC ++ suffC)) ++ [']', ']'])⟩,
          ⟨nameC ++ '.' :: extC⟩, ""⟩ := by
    unfold findFrom
    rw [Nat.sub_zero, ascSearch, hw0]
  unfold matchAllW
  rw [matchAllAux_cons _ _ _ _ _ hfind]
  have hlt : (⟨0, 3 + (nameC.length + 1 + extC.length + (suffC.length + 2)),
      ⟨'!' :: '[' :: '[' :: ((nameC ++ '.' :: (extC ++ suffC)) ++ [']', ']'])⟩,
      ⟨nameC ++ '.' :: extC⟩, ""⟩ : MatchInfo).start
      < (⟨0, 3 + (nameC.length + 1 + extC.length + (suffC.length + 2)),
        ⟨'!' :: '[' :: '[' :: ((nameC ++ '.' :: (extC ++ suffC)) ++ [']', ']'])⟩,
        ⟨nameC ++ '.' :: extC⟩, ""⟩ : MatchInfo).stop := by
    show (0 : Nat) < 3 + (nameC.length + 1 + extC.length + (suffC.length + 2))
    omega
  rw [if_pos hlt]
  rw [show (⟨0, 3 + (nameC.length + 1 + extC.length + (suffC.length + 2)),
      ⟨'!' :: '[' :: '[' :: ((nameC ++ '.' :: (extC ++ suffC)) ++ [']', ']'])⟩,
      ⟨nameC ++ '.' :: extC⟩, ""⟩ : MatchInfo).stop
    = 3 + (nameC.length + 1 + extC.length + (suffC.length + 2)) from rfl]
  rw [hTlen]
  rw [matchAllAux_nil _ _ _ hnext]

/-- C10 amended: for a document that is one bracketed span whose interior
name-dot-extension-suffix decomposition is free of line terminators, whose
suffix neither begins a closing bracket pair nor is a lone closing bracket,
and whose name admits no earlier dot-extension split, the bracketed-wiki
scan emits exactly one reference, whose displayName is name.ext and whose
rawSpan is the whole bracketed span with the suffix included: the suffix
need not begin with a vertical bar; and whenever the full extraction
returns a list at all, i.e. percent-decoding does not abort it, that
reference leads the list. -/
theorem c10_wiki_suffix (dec : String → Option String) (loc : String)
    (nameC extC suffC : List Char)
    (hext : extC ∈ extList)
    (hdot : ∀ c ∈ nameC ++ '.' :: (extC ++ suffC), jsDot c = true)
    (hsuf : suffC = [] ∨ lsw [']', ']'] (suffC ++ [']', ']']) = false)
    (hmin : ∀ j, j < nameC.length → ∀ e ∈ extList,
      lsw ('.' :: e) ((nameC ++ '.' :: (extC ++ suffC)).drop j) = false) :
    matchAllW ('!' :: '[' :: '[' :: ((nameC ++ '.' :: (extC ++ suffC)) ++ [']', ']']))
      = [⟨0, 3 + (nameC.length + 1 + extC.length + (suffC.length + 2)),
          ⟨'!' :: '[' :: '[' :: ((nameC ++ '.' :: (extC ++ suffC)) ++ [']', ']'])⟩,
          ⟨nameC ++ '.' :: extC⟩, ""⟩]
    ∧ (mkWikiImage loc
        ⟨0, 3 + (nameC.length + 1 + extC.length + (suffC.length + 2)),
          ⟨'!' :: '[' :: '[' :: ((nameC ++ '.' :: (extC ++ suffC)) ++ [']', ']'])⟩,
          ⟨nameC ++ '.' :: extC⟩, ""⟩).name = ⟨nameC ++ '.' :: extC⟩
    ∧ (mkWikiImage loc
        ⟨0, 3 + (nameC.length + 1 + extC.length + (suffC.length + 2)),
          ⟨'!' :: '[' :: '[' :: ((nameC ++ '.' :: (extC ++ suffC)) ++ [']', ']'])⟩,
          ⟨nameC ++ '.' :: extC⟩, ""⟩).source
      = ⟨'!' :: '[' :: '[' :: ((nameC ++ '.' :: (extC ++ suffC)) ++ [']', ']'])⟩
    ∧ (∀ imgs, getImageLists dec loc
          ⟨'!' :: '[' :: '[' :: ((nameC ++ '.' :: (extC ++ suffC)) ++ [']', ']'])⟩
          = some imgs →
        imgs.head? = some (mkWikiImage loc
          ⟨0, 3 + (nameC.length + 1 + extC.length + (suffC.length + 2)),
            ⟨'!' :: '[' :: '[' :: ((nameC ++ '.' :: (extC ++ suffC)) ++ [']', ']'])⟩,
            ⟨nameC ++ '.' :: extC⟩, ""⟩)) := by
  have hW := matchAllW_split nameC extC suffC hext hdot hsuf hmin
  refine ⟨hW, rfl, rfl, ?_⟩
  intro imgs himgs
  unfold getImageLists at himgs
  cases hmd : mdLoop dec (matchAllM
      ((⟨'!' :: '[' :: '[' :: ((nameC ++ '.' :: (extC ++ suffC)) ++ [']', ']'])⟩ : String).data)) with
  | none =>
    rw [hmd] at himgs
    exact absurd himgs (by simp)
  | some mdImgs =>
    rw [hmd] at himgs
    have hi : (matchAllW
          ((⟨'!' :: '[' :: '[' :: ((nameC ++ '.' :: (extC ++ suffC)) ++ [']', ']'])⟩ : String).data)).map
          (mkWikiImage loc) ++ mdImgs = imgs :=
      Option.some_injective _ himgs
    rw [← hi]
    rw [show (⟨'!' :: '[' :: '[' :: ((nameC ++ '.' :: (extC ++ suffC)) ++ [']', ']'])⟩ : String).data
      = '!' :: '[' :: '[' :: ((nameC ++ '.' :: (extC ++ suffC)) ++ [']', ']']) from rfl]
    rw [hW]
    rfl

/-- C10 counterexample: with name a, extension png and a suffix that is a
bare newline, which contains no closing bracket pair, the scan emits no
reference at all: the regex dot cannot cross the line terminator. -/
theorem c10_newline_counterexample :
    getImageLists (fun s => some s) "assets" "![[a.png\n]]" = some [] := by decide

/-- Witness for c10_wiki_suffix at name cat, extension png and the suffix
bar-five-zero. -/
theorem c10_wiki_suffix_witness :
    ("png".data ∈ extList
      ∧ (∀ c ∈ "cat".data ++ '.' :: ("png".data ++ "|50".data), jsDot c = true)
      ∧ ("|50".data = ([] : List Char)
          ∨ lsw [']', ']'] ("|50".data ++ [']', ']']) = false)
      ∧ (∀ j, j < "cat".data.length → ∀ e ∈ extList,
          lsw ('.' :: e) (("cat".data ++ '.' :: ("png".data ++ "|50".data)).drop j) = false))
    ∧ (matchAllW ('!' :: '[' :: '[' :: (("cat".data ++ '.' :: ("png".data ++ "|50".data)) ++ [']', ']']))
        = [⟨0, 3 + ("cat".data.length + 1 + "png".data.length + ("|50".data.length + 2)),
            ⟨'!' :: '[' :: '[' :: (("cat".data ++ '.' :: ("png".data ++ "|50".data)) ++ [']', ']'])⟩,
            ⟨"cat".data ++ '.' :: "png".data⟩, ""⟩]
      ∧ (mkWikiImage "assets"
          ⟨0, 3 + ("cat".data.length + 1 + "png".data.length + ("|50".data.length + 2)),
            ⟨'!' :: '[' :: '[' :: (("cat".data ++ '.' :: ("png".data ++ "|50".data)) ++ [']', ']'])⟩,
            ⟨"cat".data ++ '.' :: "png".data⟩, ""⟩).name
        = ⟨"cat".data ++ '.' :: "png".data⟩
      ∧ (mkWikiImage "assets"
          ⟨0, 3 + ("cat".data.length + 1 + "png".data.length + ("|50".data.length + 2)),
            ⟨'!' :: '[' :: '[' :: (("cat".data ++ '.' :: ("png".data ++ "|50".data)) ++ [']', ']'])⟩,
            ⟨"cat".data ++ '.' :: "png".data⟩, ""⟩).source
        = ⟨'!' :: '[' :: '[' :: (("cat".data ++ '.' :: ("png".data ++ "|50".data)) ++ [']', ']'])⟩
      ∧ (∀ imgs, getImageLists (fun s => some s) "assets"
            ⟨'!' :: '[' :: '[' :: (("cat".data ++ '.' :: ("png".data ++ "|50".data)) ++ [']', ']'])⟩
            = some imgs →
          imgs.head? = some (mkWikiImage "assets"
            ⟨0, 3 + ("cat".data.length + 1 + "png".data.length + ("|50".data.length + 2)),
              ⟨'!' :: '[' :: '[' :: (("cat".data ++ '.' :: ("png".data ++ "|50".data)) ++ [']', ']'])⟩,
              ⟨"cat".data ++ '.' :: "png".data⟩, ""⟩))) :=
  ⟨⟨by decide, by decide, by decide, by decide⟩,
    c10_wiki_suffix (fun s => some s) "assets" "cat".data "png".data "|50".data
      (by decide) (by decide) (by decide) (by decide)⟩

end ImageToolkit
